import Mathlib

/-!
Shallow embedding of the `docflux_mkdocs` MkDocs export plugin
(`src/docflux_mkdocs/plugin.py`) and proofs about its specified behaviour.

Text is modelled as `List Char` (named `Str` below), mirroring Python `str`
values character by character.  Python string methods used by the plugin
(`strip`, `lstrip`, `splitlines`, `startswith`, truthiness via `or`) are
given faithful ASCII-level counterparts.  File-system paths are modelled as
plain strings; `pathlib`'s `/` operator becomes `joinPath` and
`Path.is_absolute()` becomes a leading-slash test.  The `.resolve()` call
(symlink and `..` normalisation) is modelled as the identity on the joined
path, which is all the plugin's command builders rely on.
-/

/-- Python `str` modelled as a list of characters. -/
abbrev Str := List Char

/-- The ASCII whitespace characters recognised by Python's `str.strip`. -/
def isWsChar (c : Char) : Bool :=
  c = ' ' || c = '\t' || c = '\n' || c = '\r' || c = '\x0b' || c = '\x0c'

/-- Python `str.lstrip()`. -/
def lstrip (s : Str) : Str := s.dropWhile isWsChar

/-- Python `str.rstrip()`. -/
def rstrip (s : Str) : Str := (s.reverse.dropWhile isWsChar).reverse

/-- Python `str.strip()`. -/
def pyStrip (s : Str) : Str := lstrip (rstrip s)

/-- Split a string at every newline, keeping empty segments:
`linesOn "a\nb" = ["a", "b"]`, `linesOn "a\n" = ["a", ""]`, `linesOn "" = [""]`. -/
def linesOn : Str → List Str
  | [] => [[]]
  | c :: t =>
    if c = '\n' then [] :: linesOn t
    else
      match linesOn t with
      | [] => [[c]]
      | l :: ls => (c :: l) :: ls

/-- Python `str.splitlines()` (restricted to `\n` line breaks, the only
break character produced by the plugin): a trailing newline does not open
an extra empty line, and the empty string has no lines. -/
def pySplitlines (s : Str) : List Str :=
  if s = [] then []
  else if s.getLastD ' ' = '\n' then (linesOn s).dropLast
  else linesOn s

/-- Python `a or b` for two strings: `a` unless it is empty (falsy). -/
def pyOrStr (a b : Str) : Str := if a = [] then b else a

/-- Python `a or b` where `a` is an optional string (`None` and `""` are
falsy). -/
def pyOrOptStr (a : Option Str) (b : Str) : Str :=
  match a with
  | none => b
  | some s => if s = [] then b else s

/-- Python `s.startswith(p)`. -/
def pyStartswith (p s : Str) : Bool := List.isPrefixOf p s

/-- Python `p in s` (substring containment). -/
def occursIn (p s : Str) : Bool := s.tails.any (fun t => List.isPrefixOf p t)

/-- Python `str(n)` for a natural number. -/
def natToStr (n : Nat) : Str := Nat.toDigits 10 n

/-- Python `str(i)` for an integer. -/
def intToStr (i : Int) : Str :=
  if i < 0 then '-' :: natToStr i.natAbs else natToStr i.natAbs

/-- An `mkdocs.exceptions.PluginError`, carrying its message. -/
structure PluginError where
  msg : Str
deriving DecidableEq, Repr

/-- The `formats` configuration items (`Choice(("docx", "pdf"))`). -/
inductive ExportFormat
  | docx
  | pdf
deriving DecidableEq, Repr

/-- The `pdf_strategy` configuration choice (`Choice(("pandoc", "chrome"))`). -/
inductive PdfStrategy
  | pandoc
  | chrome
deriving DecidableEq, Repr

/-- The `mermaid_mode` configuration choice (`Choice(("preserve", "pre_render"))`). -/
inductive MermaidMode
  | preserve
  | pre_render
deriving DecidableEq, Repr

/-- The plugin configuration options consumed by the code modelled here
(the renderer-specific options `mmdc_path`, `mermaid_background`,
`mermaid_width`, `mermaid_kroki_url`, `mermaid_timeout_seconds` and
`mermaid_chrome_path` are only read inside `_render_mermaid`, which is
modelled as an external oracle, so they are omitted). -/
structure Config where
  enabled : Bool
  formats : List ExportFormat
  output_dir : Str
  filename : Str
  single_file : Bool
  command_timeout_seconds : Int
  pandoc_path : Str
  toc : Bool
  toc_depth : Int
  docx_reference_doc : Option Str
  docx_extra_args : List Str
  pandoc_extra_args : List Str
  pdf_strategy : PdfStrategy
  pdf_engine : Option Str
  pdf_css : Option Str
  pdf_extra_args : List Str
  chrome_path : Str
  chrome_extra_args : List Str
  mermaid_mode : MermaidMode
  mermaid_fail_on_error : Bool
deriving DecidableEq, Repr

/-- The defaults declared in `ExportPlugin.config_scheme`. -/
def defaultConfig : Config where
  enabled := true
  formats := [ExportFormat.docx]
  output_dir := "exports".data
  filename := "documentation".data
  single_file := true
  command_timeout_seconds := 300
  pandoc_path := "pandoc".data
  toc := true
  toc_depth := 3
  docx_reference_doc := none
  docx_extra_args := []
  pandoc_extra_args := []
  pdf_strategy := PdfStrategy.chrome
  pdf_engine := none
  pdf_css := none
  pdf_extra_args := []
  chrome_path := "google-chrome".data
  chrome_extra_args := []
  mermaid_mode := MermaidMode.preserve
  mermaid_fail_on_error := false

/-- A page captured by `on_page_markdown` (dataclass `CollectedPage`). -/
structure CollectedPage where
  src_path : Str
  title : Str
  markdown : Str
deriving DecidableEq, Repr

/-- The slice of `mkdocs.structure.pages.Page` read by the plugin:
`page.title` (possibly `None`) and `page.file.src_path`. -/
structure PageInfo where
  title : Option Str
  src_path : Str
deriving DecidableEq, Repr

/-- Python `pathlib` absolute-path test (POSIX): a leading slash. -/
def isAbsolutePath (p : Str) : Bool := pyStartswith ['/'] p

/-- The `pathlib` `/` operator on the modelled paths. -/
def joinPath (a b : Str) : Str := a ++ '/' :: b

/-- Embeds `ExportPlugin._resolve_project_path`; `.resolve()` is modelled as
the identity on the joined path. -/
def resolve_project_path (projectRoot : Str) (value : Str) : Str :=
  if isAbsolutePath value then value else joinPath projectRoot value

/-- Embeds `ExportPlugin._resolve_output_dir`. -/
def resolve_output_dir (cfg : Config) (siteDir : Str) : Str :=
  if isAbsolutePath cfg.output_dir then cfg.output_dir else joinPath siteDir cfg.output_dir

/-- The module constant `PANDOC_FROM_FORMAT`. -/
def pandocFromFormat : Str :=
  "markdown+pipe_tables+grid_tables+table_captions+fenced_divs".data

/-- Embeds `ExportPlugin._build_toc_args`. -/
def build_toc_args (cfg : Config) : List Str :=
  if !cfg.toc then []
  else ["--toc".data, "--toc-depth".data, intToStr cfg.toc_depth]

/-- The `--reference-doc` segment of `_build_docx_command`.  The
`if reference_doc:` test is Python truthiness: both `None` and the empty
string skip the flag. -/
def reference_doc_args (cfg : Config) (projectRoot : Str) : List Str :=
  match cfg.docx_reference_doc with
  | none => []
  | some rd =>
    if rd = [] then []
    else ["--reference-doc".data, resolve_project_path projectRoot rd]

/-- Embeds `ExportPlugin._build_docx_command`. -/
def build_docx_command (cfg : Config) (projectRoot input output : Str) : List Str :=
  [cfg.pandoc_path, input,
   "--from".data, pandocFromFormat,
   "--to".data, "docx".data,
   "--standalone".data,
   "-o".data, output]
  ++ build_toc_args cfg
  ++ reference_doc_args cfg projectRoot
  ++ cfg.docx_extra_args
  ++ cfg.pandoc_extra_args

/-- Embeds `ExportPlugin._build_pandoc_pdf_command`. -/
def build_pandoc_pdf_command (cfg : Config) (input output : Str) : List Str :=
  [cfg.pandoc_path, input,
   "--from".data, pandocFromFormat,
   "--to".data, "pdf".data,
   "--standalone".data,
   "-o".data, output]
  ++ build_toc_args cfg
  ++ (match cfg.pdf_engine with
      | none => []
      | some eng => if eng = [] then [] else ["--pdf-engine".data, eng])
  ++ cfg.pdf_extra_args
  ++ cfg.pandoc_extra_args

/-- Embeds `ExportPlugin._build_html_command`. -/
def build_html_command (cfg : Config) (projectRoot input htmlOut : Str) : List Str :=
  [cfg.pandoc_path, input,
   "--from".data, pandocFromFormat,
   "--to".data, "html5".data,
   "--standalone".data,
   "--embed-resources".data,
   "-o".data, htmlOut]
  ++ build_toc_args cfg
  ++ (match cfg.pdf_css with
      | none => []
      | some css => if css = [] then [] else ["--css".data, resolve_project_path projectRoot css])
  ++ cfg.pdf_extra_args
  ++ cfg.pandoc_extra_args

/-- Embeds `ExportPlugin._build_chrome_pdf_command`. -/
def build_chrome_pdf_command (cfg : Config) (htmlPath output : Str) : List Str :=
  [cfg.chrome_path,
   "--headless".data,
   "--disable-gpu".data,
   "--no-sandbox".data,
   "--no-pdf-header-footer".data,
   "--print-to-pdf=".data ++ output,
   htmlPath]
  ++ cfg.chrome_extra_args

/-- The outcome of one `subprocess.run` call, as observed by
`_run_command`'s exception handlers: executable missing, timeout, or a
completed process with an exit code and captured text output. -/
inductive RunOutcome
  | notFound
  | timedOut
  | completed (returncode : Int) (stdout stderr : Str)
deriving DecidableEq, Repr

/-- An oracle describing what `subprocess.run` does for each command line. -/
abbrev ProcessOracle := List Str → RunOutcome

/-- Embeds `ExportPlugin._extract_diagnostics`. -/
def extract_diagnostics (stderr stdout : Str) : Str :=
  let output := pyStrip (pyOrStr stderr (pyOrStr stdout []))
  if output = [] then "No additional diagnostics from process.".data
  else "Last log line: ".data ++ pyStrip ((pySplitlines output).getLastD [])

/-- Python `timeout or default` for the optional timeout argument of
`_run_command` (both `None` and `0` fall back to the configured default). -/
def effectiveTimeout (cfg : Config) (timeout : Option Int) : Int :=
  match timeout with
  | none => cfg.command_timeout_seconds
  | some t => if t = 0 then cfg.command_timeout_seconds else t

/-- Embeds `ExportPlugin._run_command`: classify the outcome of one
external command, raising `PluginError` on missing executable, timeout or
non-zero exit. -/
def run_command (cfg : Config) (exec : ProcessOracle) (command : List Str)
    (context : Str) (timeout : Option Int) : Except PluginError Unit :=
  match exec command with
  | RunOutcome.notFound =>
    Except.error ⟨"Executable not found: ".data ++ command.headD []⟩
  | RunOutcome.timedOut =>
    Except.error ⟨context ++ " timed out after ".data
      ++ intToStr (effectiveTimeout cfg timeout) ++ " seconds.".data⟩
  | RunOutcome.completed code out err =>
    if code = 0 then Except.ok ()
    else
      Except.error ⟨context ++ " failed with exit code ".data ++ intToStr code
        ++ ". ".data ++ extract_diagnostics err out⟩

/-!
The mermaid pre-renderer `_replace_mermaid_blocks` runs
`MERMAID_BLOCK_RE.sub` over the page text, where
`MERMAID_BLOCK_RE = "(three backticks)mermaid\s*\n(.*?)(three backticks)"`
with `DOTALL`.  The regex scan itself is embedded as a decomposition of
the page into alternating literal text and matched blocks: a `DocPiece` is
either unmatched text or one regex match (its `\s*\n` run and its group 1).
`renderDoc` recovers the original page text from a decomposition, and a
decomposition function is quantified over with the hypothesis
`renderDoc (decomp s) = s` wherever faithfulness to the flat string is
needed.
-/

/-- One match of `MERMAID_BLOCK_RE`: `ws` is the text matched by `\s*\n`
after the opening fence (including its final newline) and `body` is
capture group 1. -/
structure MermaidMatch where
  ws : Str
  body : Str
deriving DecidableEq, Repr

/-- Python `match.group(0)`: the full matched fenced block. -/
def matchGroup0 (m : MermaidMatch) : Str :=
  "```mermaid".data ++ m.ws ++ m.body ++ "```".data

/-- A piece of a page: literal text between matches, or one match. -/
inductive DocPiece
  | text (s : Str)
  | mermaid (m : MermaidMatch)
deriving DecidableEq, Repr

/-- The literal text a piece stands for. -/
def pieceText : DocPiece → Str
  | DocPiece.text s => s
  | DocPiece.mermaid m => matchGroup0 m

/-- Reassemble the flat page text from its decomposition. -/
def renderDoc (doc : List DocPiece) : Str := (doc.map pieceText).flatten

/-- A decomposition oracle standing for the regex scan. -/
abbrev DecompOracle := Str → List DocPiece

/-- An oracle for `_render_mermaid`: for each (stripped) mermaid source,
either success (`none`) or the `PluginError` the renderer raised. -/
abbrev RenderOracle := Str → Option PluginError

/-- The mutable build state touched by the pre-renderer: which digests
already have a rendered `.png` in the asset directory, the directories
created, the log of renderer invocations (by block content) and the
warnings logged for failed renders. -/
structure RenderState where
  pngs : List Str
  mkdirs : List Str
  calls : List Str
  warnings : List Str
deriving DecidableEq, Repr

/-- The digest oracle stands for
`hashlib.sha256(content.encode()).hexdigest()[:16]`. -/
abbrev DigestOracle := Str → Str

/-- The `_mermaid` asset directory under the output directory. -/
def assetDir (outputDir : Str) : Str := joinPath outputDir "_mermaid".data

/-- The cache path `asset_dir / (digest ++ ".png")`. -/
def pngPath (outputDir digestValue : Str) : Str :=
  joinPath (assetDir outputDir) (digestValue ++ ".png".data)

/-- The replacement text `"![Mermaid diagram](png_path)"`. -/
def mermaidImageRef (outputDir digestValue : Str) : Str :=
  "![Mermaid diagram](".data ++ pngPath outputDir digestValue ++ ")".data

/-- Embeds the inner `_replace` closure of `_replace_mermaid_blocks` for
one match: empty blocks are returned verbatim; otherwise the content is
digested, the cache is consulted, and a miss invokes the renderer, either
propagating the failure (`mermaid_fail_on_error`) or logging a warning and
returning the original block. -/
def replaceOneMatch (cfg : Config) (digest : DigestOracle) (render : RenderOracle)
    (outputDir : Str) (m : MermaidMatch) (st : RenderState) :
    Except PluginError Str × RenderState :=
  let content := pyStrip m.body
  if content = [] then (Except.ok (matchGroup0 m), st)
  else
    let d := digest content
    if st.pngs.contains d then (Except.ok (mermaidImageRef outputDir d), st)
    else
      let st1 : RenderState := { st with calls := st.calls ++ [content] }
      match render content with
      | none =>
        (Except.ok (mermaidImageRef outputDir d), { st1 with pngs := st1.pngs ++ [d] })
      | some e =>
        if cfg.mermaid_fail_on_error then (Except.error e, st1)
        else (Except.ok (matchGroup0 m), { st1 with warnings := st1.warnings ++ [d] })

/-- Runs `replaceOneMatch` over every piece of a decomposed page in order,
threading the state; text pieces pass through untouched.  This is the
embedding of `MERMAID_BLOCK_RE.sub(_replace, markdown)`. -/
def processPieces (cfg : Config) (digest : DigestOracle) (render : RenderOracle)
    (outputDir : Str) (doc : List DocPiece) (st : RenderState) :
    Except PluginError (List Str) × RenderState :=
  match doc with
  | [] => (Except.ok [], st)
  | DocPiece.text s :: rest =>
    match processPieces cfg digest render outputDir rest st with
    | (Except.ok outs, st') => (Except.ok (s :: outs), st')
    | (Except.error e, st') => (Except.error e, st')
  | DocPiece.mermaid m :: rest =>
    match replaceOneMatch cfg digest render outputDir m st with
    | (Except.ok o, st1) =>
      match processPieces cfg digest render outputDir rest st1 with
      | (Except.ok outs, st') => (Except.ok (o :: outs), st')
      | (Except.error e, st') => (Except.error e, st')
    | (Except.error e, st1) => (Except.error e, st1)

/-- Does the page contain the literal `"(three backticks)mermaid"` marker
(the cheap `in` test guarding `_replace_mermaid_blocks`)? -/
def hasMermaidMarker (doc : List DocPiece) : Bool :=
  occursIn "```mermaid".data (renderDoc doc)

/-- Embeds `ExportPlugin._replace_mermaid_blocks` on a decomposed page:
without the marker the page is returned unchanged and no directory is
created; otherwise the asset directory is created and every match is
substituted. -/
def replace_mermaid_blocks (cfg : Config) (digest : DigestOracle) (render : RenderOracle)
    (outputDir : Str) (doc : List DocPiece) (st : RenderState) :
    Except PluginError Str × RenderState :=
  if !hasMermaidMarker doc then (Except.ok (renderDoc doc), st)
  else
    let st0 : RenderState := { st with mkdirs := st.mkdirs ++ [assetDir outputDir] }
    match processPieces cfg digest render outputDir doc st0 with
    | (Except.ok outs, st') => (Except.ok outs.flatten, st')
    | (Except.error e, st') => (Except.error e, st')

/-- The fixed page-break separator of `_build_combined_markdown`. -/
def pageBreakSeparator : Str :=
  "\n\n\\newpage\n<div style=\"page-break-before: always;\"></div>\n\n".data

/-- The synthesized heading line `"# " + title`. -/
def headingLine (title : Str) : Str := '#' :: ' ' :: title

/-- The heading-normalisation step of `_build_combined_markdown`: a page
whose content does not already start (after `lstrip`) with `#` gets the
synthesized heading prepended, or stands alone if the content is empty. -/
def addHeading (title content : Str) : Str :=
  if !pyStartswith ['#'] (lstrip content) then
    if content = [] then headingLine title
    else headingLine title ++ '\n' :: '\n' :: content
  else content

/-- The per-page body of the loop in `_build_combined_markdown`: strip the
page markdown, pre-render mermaid blocks when configured, then normalise
the heading. -/
def pageContent (cfg : Config) (digest : DigestOracle) (render : RenderOracle)
    (decomp : DecompOracle) (outputDir : Str) (page : CollectedPage) (st : RenderState) :
    Except PluginError Str × RenderState :=
  let content := pyStrip page.markdown
  if cfg.mermaid_mode = MermaidMode.pre_render then
    replace_mermaid_blocks cfg digest render outputDir (decomp content) st
  else (Except.ok content, st)

/-- One chunk of `_build_combined_markdown` (processed content plus
heading normalisation). -/
def pageChunk (cfg : Config) (digest : DigestOracle) (render : RenderOracle)
    (decomp : DecompOracle) (outputDir : Str) (page : CollectedPage) (st : RenderState) :
    Except PluginError Str × RenderState :=
  match pageContent cfg digest render decomp outputDir page st with
  | (Except.ok content, st') => (Except.ok (addHeading page.title content), st')
  | (Except.error e, st') => (Except.error e, st')

/-- The chunk-collecting loop of `_build_combined_markdown`. -/
def pageChunks (cfg : Config) (digest : DigestOracle) (render : RenderOracle)
    (decomp : DecompOracle) (outputDir : Str) :
    List CollectedPage → RenderState → Except PluginError (List Str) × RenderState
  | [], st => (Except.ok [], st)
  | page :: rest, st =>
    match pageChunk cfg digest render decomp outputDir page st with
    | (Except.ok c, st1) =>
      match pageChunks cfg digest render decomp outputDir rest st1 with
      | (Except.ok cs, st') => (Except.ok (c :: cs), st')
      | (Except.error e, st') => (Except.error e, st')
    | (Except.error e, st1) => (Except.error e, st1)

/-- Embeds `ExportPlugin._build_combined_markdown`: join the chunks with
the page-break separator and append one trailing newline. -/
def build_combined_markdown (cfg : Config) (digest : DigestOracle) (render : RenderOracle)
    (decomp : DecompOracle) (outputDir : Str) (pages : List CollectedPage)
    (st : RenderState) : Except PluginError Str × RenderState :=
  match pageChunks cfg digest render decomp outputDir pages st with
  | (Except.ok chunks, st') =>
    (Except.ok (List.intercalate pageBreakSeparator chunks ++ ['\n']), st')
  | (Except.error e, st') => (Except.error e, st')

/-- The final path component (`Path(p).name`). -/
def pathName (p : Str) : Str := (p.reverse.takeWhile (fun c => c ≠ '/')).reverse

/-- Python `Path(p).stem`: the name minus its last suffix; a dot that is
the first or the last character of the name opens no suffix. -/
def pathStem (p : Str) : Str :=
  let name := pathName p
  let r := name.reverse
  if r.headD ' ' = '.' then name
  else
    let pre := r.takeWhile (fun c => c ≠ '.')
    if pre.length = r.length then name
    else
      let rest := r.drop (pre.length + 1)
      if rest = [] then name else rest.reverse

/-- Python `str.title()` on ASCII text: an alphabetic character is
uppercased after a non-alphabetic one and lowercased otherwise. -/
def pyTitleGo : Bool → Str → Str
  | _, [] => []
  | prevAlpha, c :: t =>
    let c' := if c.isAlpha then (if prevAlpha then c.toLower else c.toUpper) else c
    c' :: pyTitleGo c.isAlpha t

/-- Python `str.title()`. -/
def pyTitle (s : Str) : Str := pyTitleGo false s

/-- Embeds `ExportPlugin._title_from_src_path`. -/
def title_from_src_path (srcPath : Str) : Str :=
  pyTitle ((pathStem srcPath).map (fun c => if c = '-' || c = '_' then ' ' else c))

/-- The message of the `PluginError` raised by `on_config` for split mode. -/
def singleFileErrorMsg : Str := "single_file=false is not implemented yet".data

/-- Embeds `ExportPlugin.on_config`: a disabled plugin returns at once;
otherwise requesting `single_file=false` raises a `PluginError`. -/
def on_config (cfg : Config) : Except PluginError Unit :=
  if !cfg.enabled then Except.ok ()
  else if !cfg.single_file then Except.error ⟨singleFileErrorMsg⟩
  else Except.ok ()

/-- Embeds `ExportPlugin.on_page_markdown`: returns the markdown argument
and the new accumulated page list. -/
def on_page_markdown (cfg : Config) (pages : List CollectedPage)
    (page : PageInfo) (markdown : Str) : Str × List CollectedPage :=
  if !cfg.enabled then (markdown, pages)
  else
    let title := pyOrOptStr page.title (title_from_src_path page.src_path)
    (markdown, pages ++ [⟨page.src_path, title, markdown⟩])

/-- The observable effects of `on_post_build`: whether the no-pages
warning was logged, the directories created, the combined document built
(if any), the external commands handed to `subprocess.run`, and the
pre-renderer state (which carries the mermaid asset effects). -/
structure PostBuildFx where
  warnedNoPages : Bool
  mkdirs : List Str
  combined : Option Str
  commands : List (List Str)
  renderSt : RenderState
deriving DecidableEq, Repr

/-- The effect record of a run that did nothing. -/
def emptyFx (st : RenderState) : PostBuildFx :=
  { warnedNoPages := false, mkdirs := [], combined := none, commands := [], renderSt := st }

/-- Runs `run_command` and logs the spawned command line. -/
def runLogged (cfg : Config) (exec : ProcessOracle) (command : List Str)
    (context : Str) (timeout : Option Int) (fx : PostBuildFx) :
    Except PluginError Unit × PostBuildFx :=
  (run_command cfg exec command context timeout,
   { fx with commands := fx.commands ++ [command] })

/-- Embeds `ExportPlugin._export_docx` (the temporary input file is the
fixed name `combined.md` under the temporary directory). -/
def export_docx (cfg : Config) (exec : ProcessOracle) (projectRoot tmpDir outputPath : Str)
    (fx : PostBuildFx) : Except PluginError Unit × PostBuildFx :=
  let inputPath := joinPath tmpDir "combined.md".data
  runLogged cfg exec (build_docx_command cfg projectRoot inputPath outputPath)
    "DOCX export".data none fx

/-- Embeds `ExportPlugin._export_pdf` for both strategies. -/
def export_pdf (cfg : Config) (exec : ProcessOracle) (projectRoot tmpDir outputPath : Str)
    (fx : PostBuildFx) : Except PluginError Unit × PostBuildFx :=
  let inputPath := joinPath tmpDir "combined.md".data
  if cfg.pdf_strategy = PdfStrategy.pandoc then
    runLogged cfg exec (build_pandoc_pdf_command cfg inputPath outputPath)
      "PDF export (pandoc)".data none fx
  else
    let htmlPath := joinPath tmpDir "combined.html".data
    match runLogged cfg exec (build_html_command cfg projectRoot inputPath htmlPath)
        "PDF export HTML generation".data none fx with
    | (Except.ok _, fx1) =>
      runLogged cfg exec (build_chrome_pdf_command cfg htmlPath outputPath)
        "PDF export (chrome)".data none fx1
    | (Except.error e, fx1) => (Except.error e, fx1)

/-- The file extension string of a requested format. -/
def formatExt : ExportFormat → Str
  | ExportFormat.docx => "docx".data
  | ExportFormat.pdf => "pdf".data

/-- The per-format loop of `on_post_build`; a `PluginError` from one
export aborts the remaining formats. -/
def exportFormats (cfg : Config) (exec : ProcessOracle) (projectRoot tmpDir outDir : Str) :
    List ExportFormat → PostBuildFx → Except PluginError Unit × PostBuildFx
  | [], fx => (Except.ok (), fx)
  | fmt :: rest, fx =>
    let target := joinPath outDir (cfg.filename ++ '.' :: formatExt fmt)
    let step :=
      match fmt with
      | ExportFormat.docx => export_docx cfg exec projectRoot tmpDir target fx
      | ExportFormat.pdf => export_pdf cfg exec projectRoot tmpDir target fx
    match step with
    | (Except.ok _, fx1) => exportFormats cfg exec projectRoot tmpDir outDir rest fx1
    | (Except.error e, fx1) => (Except.error e, fx1)

/-- Embeds `ExportPlugin.on_post_build`: nothing happens when disabled; a
build with no collected pages logs a warning and returns; otherwise the
output directory is created, the combined document is built and every
requested format is exported in declaration order. -/
def on_post_build (cfg : Config) (digest : DigestOracle) (render : RenderOracle)
    (decomp : DecompOracle) (exec : ProcessOracle) (projectRoot tmpDir : Str)
    (pages : List CollectedPage) (siteDir : Str) (st : RenderState) :
    Except PluginError Unit × PostBuildFx :=
  if !cfg.enabled then (Except.ok (), emptyFx st)
  else if pages = [] then (Except.ok (), { emptyFx st with warnedNoPages := true })
  else
    let outDir := resolve_output_dir cfg siteDir
    let fx0 := { emptyFx st with mkdirs := [outDir] }
    match build_combined_markdown cfg digest render decomp outDir pages st with
    | (Except.ok combined, st') =>
      exportFormats cfg exec projectRoot tmpDir outDir cfg.formats
        { fx0 with combined := some combined, renderSt := st' }
    | (Except.error e, st') => (Except.error e, { fx0 with renderSt := st' })

/-- The whole build seen by the plugin: `on_config`, then one
`on_page_markdown` callback per page, then `on_post_build`.  A
`PluginError` from `on_config` aborts the build before anything else
runs. -/
def runPipeline (cfg : Config) (digest : DigestOracle) (render : RenderOracle)
    (decomp : DecompOracle) (exec : ProcessOracle) (projectRoot tmpDir : Str)
    (inputs : List (PageInfo × Str)) (siteDir : Str) (st : RenderState) :
    Except PluginError Unit × PostBuildFx :=
  match on_config cfg with
  | Except.error e => (Except.error e, emptyFx st)
  | Except.ok _ =>
    let pages := inputs.foldl (fun acc pm => (on_page_markdown cfg acc pm.1 pm.2).2) []
    on_post_build cfg digest render decomp exec projectRoot tmpDir pages siteDir st

/-- Modelled from the spec: the repository sources under `src/` contain no
DOCX field-update post-processor (`_enable_docx_update_fields` appears
only in the test suite), so its data is modelled from spec section 4.7.
One item of the word-processing settings XML: either the
field-update-on-open element with its boolean value flag, or any other
element kept as uninterpreted text. -/
inductive SettingsItem
  | updateFields (val : Bool)
  | element (raw : Str)
deriving DecidableEq, Repr

/-- Modelled from the spec: the content of one DOCX archive entry — the
parsed word-processing settings XML for the settings entry, or raw bytes
for every other entry. -/
inductive EntryContent
  | settingsXml (items : List SettingsItem)
  | fileBytes (raw : Str)
deriving DecidableEq, Repr

/-- Modelled from the spec: one named entry of the DOCX zip archive. -/
structure ZipEntry where
  name : Str
  content : EntryContent
deriving DecidableEq, Repr

/-- The archive name of the word-processing settings entry. -/
def settingsEntryName : Str := "word/settings.xml".data

/-- Is this item the field-update-on-open element? -/
def isUpdateItem : SettingsItem → Bool
  | SettingsItem.updateFields _ => true
  | _ => false

/-- Set the value flag of a field-update element to true, leaving every
other item alone. -/
def setUpdateTrue : SettingsItem → SettingsItem
  | SettingsItem.updateFields _ => SettingsItem.updateFields true
  | e => e

/-- Read the value flag of a field-update element. -/
def pickUpdateVal : SettingsItem → Option Bool
  | SettingsItem.updateFields v => some v
  | _ => none

/-- Modelled from the spec: ensure a field-update-on-open element exists
with its value flag set true — existing elements are set true, otherwise
one is appended. -/
def ensure_update_fields (items : List SettingsItem) : List SettingsItem :=
  if items.any isUpdateItem then items.map setUpdateTrue
  else items ++ [SettingsItem.updateFields true]

/-- Patch one archive entry: only the parsed settings entry changes. -/
def patchEntry (e : ZipEntry) : ZipEntry :=
  if e.name = settingsEntryName then
    match e.content with
    | EntryContent.settingsXml items =>
      { name := e.name, content := EntryContent.settingsXml (ensure_update_fields items) }
    | _ => e
  else e

/-- Modelled from the spec: the missing `_enable_docx_update_fields`
post-processor — open the DOCX archive, patch the settings entry so the
field-update-on-open flag is true, and rewrite only that entry, leaving
every other entry byte-identical. -/
def enable_docx_update_fields (archive : List ZipEntry) : List ZipEntry :=
  archive.map patchEntry

/-- Reads the field-update-on-open flag of the settings entry, if the
archive has a parsed settings entry carrying one. -/
def readUpdateFlag (archive : List ZipEntry) : Option Bool :=
  match archive.find? (fun e => e.name = settingsEntryName) with
  | some e =>
    match e.content with
    | EntryContent.settingsXml items => items.findSome? pickUpdateVal
    | _ => none
  | none => none

/-- The render state of a fresh build with an empty asset cache. -/
def emptyRenderState : RenderState :=
  { pngs := [], mkdirs := [], calls := [], warnings := [] }

/-- A configuration that requests split mode with the plugin disabled. -/
def splitDisabledConfig : Config :=
  { defaultConfig with enabled := false, single_file := false }

/-- A configuration with the plugin disabled. -/
def disabledConfig : Config := { defaultConfig with enabled := false }

/-- A configuration whose reference document is configured as the empty
string. -/
def emptyRefConfig : Config := { defaultConfig with docx_reference_doc := some [] }

/-- The per-content caching invariant between two states of one build:
the cache only grows, a cached digest means no further renderer calls for
that content, at most one call for the content is added while it is
uncached, and any added call leaves its digest cached afterwards. -/
def cacheInv (digest : DigestOracle) (c : Str) (st st' : RenderState) : Prop :=
  (∀ d, d ∈ st.pngs → d ∈ st'.pngs) ∧
  (digest c ∈ st.pngs → st'.calls.count c = st.calls.count c) ∧
  st'.calls.count c ≤ st.calls.count c + (if digest c ∈ st.pngs then 0 else 1) ∧
  (st.calls.count c < st'.calls.count c → digest c ∈ st'.pngs)

/-- The mermaid match used in the C1 counterexample. -/
def failingMatch : MermaidMatch := { ws := [], body := "graph\n".data }

/-- A render state whose asset cache already holds the image for the
content `"graph"` (as served by a persistent `_mermaid/` directory from
an earlier build). -/
def precachedRenderState : RenderState :=
  { pngs := ["graph".data], mkdirs := [], calls := [], warnings := [] }

/-- Rejoin a line list with newlines (left inverse of `linesOn`). -/
def joinLines : List Str → Str
  | [] => []
  | [l] => l
  | l :: ls => l ++ '\n' :: joinLines ls

/-- The fixed message used when a failed process produced no output. -/
def noDiagnosticsMsg : Str := "No additional diagnostics from process.".data

/-- The label starting a diagnostics message that carries a log line. -/
def lastLogLineLabel : Str := "Last log line: ".data

/-- The specification's reading of the diagnostic line: the last line of
the captured output that is not blank. -/
def lastNonBlankLine (s : Str) : Option Str :=
  (pySplitlines s).reverse.find? (fun l => !(pyStrip l).isEmpty)

/-- The diagnostic string as the specification words it: the last
non-blank line of the captured error output (falling back to standard
output), stripped, or the fixed no-diagnostics message. -/
def diagnosticsSpec (stderr stdout : Str) : Str :=
  match lastNonBlankLine (pyOrStr stderr stdout) with
  | some l => lastLogLineLabel ++ pyStrip l
  | none => noDiagnosticsMsg

/-- C9: the per-page collection hook returns its markdown argument
unchanged, enabled or not, and collection only appends to the accumulated
page list — exactly the collected page when enabled, nothing when
disabled. -/
theorem on_page_markdown_identity_append (cfg : Config) (pages : List CollectedPage)
    (page : PageInfo) (markdown : Str) :
    (on_page_markdown cfg pages page markdown).1 = markdown ∧
    pages <+: (on_page_markdown cfg pages page markdown).2 ∧
    (cfg.enabled = true →
      (on_page_markdown cfg pages page markdown).2 =
        pages ++ [{ src_path := page.src_path,
                    title := pyOrOptStr page.title (title_from_src_path page.src_path),
                    markdown := markdown }]) ∧
    (cfg.enabled = false → (on_page_markdown cfg pages page markdown).2 = pages) := by
  cases h : cfg.enabled <;>
    simp [on_page_markdown, h, List.prefix_append]

/-- Witness for C9 at a concrete page: the markdown comes back unchanged
and the page is appended with a title derived from the file stem. -/
theorem on_page_markdown_identity_append_witness :
    (on_page_markdown defaultConfig []
        { title := none, src_path := "user-guide.md".data } "hello".data).1 = "hello".data ∧
    (on_page_markdown defaultConfig []
        { title := none, src_path := "user-guide.md".data } "hello".data).2 =
      [{ src_path := "user-guide.md".data, title := "User Guide".data,
         markdown := "hello".data }] := by
  refine ⟨(on_page_markdown_identity_append defaultConfig [] _ _).1, ?_⟩
  have h := (on_page_markdown_identity_append defaultConfig []
    { title := none, src_path := "user-guide.md".data } "hello".data).2.2.1 rfl
  rw [h]
  decide

/-- C7 counterexample: a configuration requesting split mode
(`single_file = false`) with the plugin disabled raises no configuration
error at all — the whole pipeline completes with `ok`, so the claim as
stated (for every configuration requesting split mode) fails. -/
theorem runPipeline_split_disabled_no_error :
    splitDisabledConfig.single_file = false ∧
    runPipeline splitDisabledConfig (fun _ => []) (fun _ => none)
        (fun s => [DocPiece.text s]) (fun _ => RunOutcome.notFound)
        "/proj".data "/tmpdir".data [] "/site".data emptyRenderState
      = (Except.ok (), emptyFx emptyRenderState) := by
  exact ⟨rfl, rfl⟩

/-- C7 (amended): for every enabled configuration requesting split mode,
`on_config` raises the configuration error and the pipeline stops there —
no external command is spawned and no renderer call is made, whatever
pages or navigation the build would have supplied. -/
theorem runPipeline_split_mode_errors_before_spawn (cfg : Config)
    (digest : DigestOracle) (render : RenderOracle) (decomp : DecompOracle)
    (exec : ProcessOracle) (projectRoot tmpDir : Str)
    (inputs : List (PageInfo × Str)) (siteDir : Str) (st : RenderState)
    (henabled : cfg.enabled = true) (hsplit : cfg.single_file = false) :
    runPipeline cfg digest render decomp exec projectRoot tmpDir inputs siteDir st
      = (Except.error { msg := singleFileErrorMsg }, emptyFx st) ∧
    (runPipeline cfg digest render decomp exec projectRoot tmpDir inputs siteDir st).2.commands
      = [] ∧
    (runPipeline cfg digest render decomp exec projectRoot tmpDir inputs siteDir st).2.renderSt.calls
      = st.calls := by
  have hcfg : on_config cfg = Except.error { msg := singleFileErrorMsg } := by
    simp [on_config, henabled, hsplit]
  refine ⟨?_, ?_, ?_⟩ <;> simp [runPipeline, hcfg, emptyFx]

/-- Witness for the amended C7 at a concrete enabled split-mode
configuration. -/
theorem runPipeline_split_mode_errors_before_spawn_witness :
    runPipeline { defaultConfig with single_file := false } (fun _ => []) (fun _ => none)
        (fun s => [DocPiece.text s]) (fun _ => RunOutcome.notFound)
        "/proj".data "/tmpdir".data [] "/site".data emptyRenderState
      = (Except.error { msg := singleFileErrorMsg }, emptyFx emptyRenderState) :=
  (runPipeline_split_mode_errors_before_spawn _ _ _ _ _ _ _ _ _ _ rfl rfl).1

/-- C10 counterexample: with the plugin disabled and no pages collected,
the end-of-build hook returns without logging the no-pages warning, so the
claim as stated (whenever no pages were collected, a warning is logged)
fails. -/
theorem on_post_build_disabled_empty_no_warning :
    (on_post_build disabledConfig (fun _ => []) (fun _ => none)
        (fun s => [DocPiece.text s]) (fun _ => RunOutcome.notFound)
        "/proj".data "/tmpdir".data [] "/site".data emptyRenderState).2.warnedNoPages
      = false := by
  exact rfl

/-- C10 (amended): for every enabled configuration, when no pages were
collected the end-of-build hook logs the warning and returns — it creates
no directory, builds no combined document and spawns no external
command. -/
theorem on_post_build_no_pages_warns_and_skips (cfg : Config)
    (digest : DigestOracle) (render : RenderOracle) (decomp : DecompOracle)
    (exec : ProcessOracle) (projectRoot tmpDir siteDir : Str) (st : RenderState)
    (henabled : cfg.enabled = true) :
    on_post_build cfg digest render decomp exec projectRoot tmpDir [] siteDir st
      = (Except.ok (), { emptyFx st with warnedNoPages := true }) ∧
    (on_post_build cfg digest render decomp exec projectRoot tmpDir [] siteDir st).2.warnedNoPages
      = true ∧
    (on_post_build cfg digest render decomp exec projectRoot tmpDir [] siteDir st).2.mkdirs
      = [] ∧
    (on_post_build cfg digest render decomp exec projectRoot tmpDir [] siteDir st).2.combined
      = none ∧
    (on_post_build cfg digest render decomp exec projectRoot tmpDir [] siteDir st).2.commands
      = [] := by
  refine ⟨?_, ?_, ?_, ?_, ?_⟩ <;> simp [on_post_build, henabled, emptyFx]

/-- Witness for the amended C10 at a concrete enabled configuration. -/
theorem on_post_build_no_pages_warns_and_skips_witness :
    on_post_build defaultConfig (fun _ => []) (fun _ => none)
        (fun s => [DocPiece.text s]) (fun _ => RunOutcome.notFound)
        "/proj".data "/tmpdir".data [] "/site".data emptyRenderState
      = (Except.ok (), { emptyFx emptyRenderState with warnedNoPages := true }) :=
  (on_post_build_no_pages_warns_and_skips _ _ _ _ _ _ _ _ _ rfl).1

/-- The joined path always contains the separator slash. -/
theorem slash_mem_joinPath (a b : Str) : '/' ∈ joinPath a b := by
  simp [joinPath]

/-- An absolute path contains a slash. -/
theorem slash_mem_of_isAbsolutePath (v : Str) (h : isAbsolutePath v = true) :
    '/' ∈ v := by
  have hp : ['/'] <+: v := by
    simpa [isAbsolutePath, pyStartswith] using h
  exact hp.subset (by simp)

/-- A slash-free string is never a resolved project path. -/
theorem ne_resolve_project_path_of_no_slash (root v s : Str) (h : '/' ∉ s) :
    s ≠ resolve_project_path root v := by
  intro heq
  unfold resolve_project_path at heq
  by_cases habs : isAbsolutePath v
  · rw [if_pos habs] at heq
    exact h (heq ▸ slash_mem_of_isAbsolutePath v habs)
  · rw [if_neg habs] at heq
    exact h (heq ▸ slash_mem_joinPath root v)

/-- The `--toc` flag never occurs in the reference-document segment. -/
theorem toc_not_mem_reference_doc_args (cfg : Config) (root : Str) :
    "--toc".data ∉ reference_doc_args cfg root := by
  unfold reference_doc_args
  cases cfg.docx_reference_doc with
  | none => simp
  | some rd =>
    by_cases hrd : rd = []
    · simp [hrd]
    · have h1 : "--toc".data ≠ "--reference-doc".data := by decide
      have h2 : "--toc".data ≠ resolve_project_path root rd :=
        ne_resolve_project_path_of_no_slash root rd "--toc".data (by decide)
      simp [hrd, h1, h2]

/-- C5 counterexample: with the reference document configured as the
empty string (a truthiness-falsy but configured value), the builder omits
the `--reference-doc` flag, so the claimed "appears if and only if a
reference document is configured" fails as stated. -/
theorem build_docx_command_empty_reference_doc :
    emptyRefConfig.docx_reference_doc = some [] ∧
    "--reference-doc".data ∉
      build_docx_command emptyRefConfig "/proj".data
        "/tmpdir/combined.md".data "/site/exports/documentation.docx".data := by
  exact ⟨rfl, by decide⟩

/-- C5 (amended): the DOCX command builder is a pure deterministic
function of configuration and paths; the command decomposes into the base
arguments, the TOC segment (present, with enable and depth flags, exactly
when `toc` is configured), the reference-document segment (present exactly
when a non-empty reference document path is configured, resolved against
the project root when not absolute), then the format-specific and general
passthrough arguments verbatim and in that order. -/
theorem build_docx_command_pure_and_flags (cfg : Config) (projectRoot input output : Str) :
    (∀ cfg₂ root₂ input₂ output₂, cfg = cfg₂ → projectRoot = root₂ → input = input₂ →
      output = output₂ →
      build_docx_command cfg projectRoot input output
        = build_docx_command cfg₂ root₂ input₂ output₂) ∧
    build_docx_command cfg projectRoot input output
      = [cfg.pandoc_path, input, "--from".data, pandocFromFormat, "--to".data,
         "docx".data, "--standalone".data, "-o".data, output]
        ++ build_toc_args cfg ++ reference_doc_args cfg projectRoot
        ++ cfg.docx_extra_args ++ cfg.pandoc_extra_args ∧
    (cfg.toc = true →
      build_toc_args cfg = ["--toc".data, "--toc-depth".data, intToStr cfg.toc_depth]) ∧
    (cfg.toc = false → build_toc_args cfg = []) ∧
    (("--toc".data ∉ cfg.docx_extra_args ∧ "--toc".data ∉ cfg.pandoc_extra_args ∧
      cfg.pandoc_path ≠ "--toc".data ∧ input ≠ "--toc".data ∧ output ≠ "--toc".data) →
      ("--toc".data ∈ build_docx_command cfg projectRoot input output ↔ cfg.toc = true)) ∧
    (∀ rd, cfg.docx_reference_doc = some rd → rd ≠ [] →
      reference_doc_args cfg projectRoot
        = ["--reference-doc".data, resolve_project_path projectRoot rd]) ∧
    (cfg.docx_reference_doc = none → reference_doc_args cfg projectRoot = []) ∧
    (cfg.docx_reference_doc = some [] → reference_doc_args cfg projectRoot = []) ∧
    (∀ v, isAbsolutePath v = true → resolve_project_path projectRoot v = v) ∧
    (∀ v, isAbsolutePath v = false →
      resolve_project_path projectRoot v = joinPath projectRoot v) := by
  refine ⟨?_, rfl, ?_, ?_, ?_, ?_, ?_, ?_, ?_, ?_⟩
  · intro cfg₂ root₂ input₂ output₂ h1 h2 h3 h4
    rw [h1, h2, h3, h4]
  · intro h; simp [build_toc_args, h]
  · intro h; simp [build_toc_args, h]
  · rintro ⟨h1, h2, h3, h4, h5⟩
    have href := toc_not_mem_reference_doc_args cfg projectRoot
    have hfix1 : "--toc".data ≠ "--from".data := by decide
    have hfix2 : "--toc".data ≠ pandocFromFormat := by decide
    have hfix3 : "--toc".data ≠ "--to".data := by decide
    have hfix4 : "--toc".data ≠ "docx".data := by decide
    have hfix5 : "--toc".data ≠ "--standalone".data := by decide
    have hfix6 : "--toc".data ≠ "-o".data := by decide
    have hvar1 : "--toc".data ≠ cfg.pandoc_path := fun h => h3 h.symm
    have hvar2 : "--toc".data ≠ input := fun h => h4 h.symm
    have hvar3 : "--toc".data ≠ output := fun h => h5 h.symm
    cases htoc : cfg.toc with
    | false =>
      simp [build_docx_command, build_toc_args, htoc, hfix1, hfix2, hfix3, hfix4,
        hfix5, hfix6, hvar1, hvar2, hvar3, href, h1, h2]
    | true =>
      have hmem : "--toc".data ∈ build_toc_args cfg := by simp [build_toc_args, htoc]
      simp [build_docx_command, List.mem_append, hmem]
  · intro rd hrd hne
    simp [reference_doc_args, hrd, hne]
  · intro h; simp [reference_doc_args, h]
  · intro h; simp [reference_doc_args, h]
  · intro v h; simp [resolve_project_path, h]
  · intro v h; simp [resolve_project_path, h]

/-- Witness for the amended C5 at a concrete configuration with a
relative reference document and non-colliding passthrough arguments. -/
theorem build_docx_command_pure_and_flags_witness :
    ("--toc".data ∈
      build_docx_command { defaultConfig with docx_reference_doc := some "templates/ref.docx".data }
        "/proj".data "/tmpdir/combined.md".data "/out.docx".data) ∧
    reference_doc_args { defaultConfig with docx_reference_doc := some "templates/ref.docx".data }
        "/proj".data
      = ["--reference-doc".data, "/proj/templates/ref.docx".data] := by
  have h := build_docx_command_pure_and_flags
    { defaultConfig with docx_reference_doc := some "templates/ref.docx".data }
    "/proj".data "/tmpdir/combined.md".data "/out.docx".data
  constructor
  · exact (h.2.2.2.2.1 (by decide)).mpr rfl
  · rw [h.2.2.2.2.2.1 "templates/ref.docx".data rfl (by decide)]
    decide

/-- A settings list with a field-update element keeps one after setting
all of them true. -/
theorem any_isUpdate_map_setTrue (items : List SettingsItem) :
    (items.map setUpdateTrue).any isUpdateItem = items.any isUpdateItem := by
  induction items with
  | nil => rfl
  | cons it t ih => cases it <;> simp [setUpdateTrue, isUpdateItem, ih]

/-- Without a field-update element, setting them true changes nothing. -/
theorem map_setTrue_id_of_no_update (items : List SettingsItem)
    (h : items.any isUpdateItem = false) : items.map setUpdateTrue = items := by
  induction items with
  | nil => rfl
  | cons it t ih =>
    cases it with
    | updateFields v => simp [isUpdateItem] at h
    | element r =>
      have ht : t.any isUpdateItem = false := by simpa [isUpdateItem] using h
      simp [setUpdateTrue, ih ht]

/-- After mapping every field-update element to true, the first one read
back is true. -/
theorem findSome_map_setTrue (items : List SettingsItem)
    (h : items.any isUpdateItem = true) :
    (items.map setUpdateTrue).findSome? pickUpdateVal = some true := by
  induction items with
  | nil => simp at h
  | cons it t ih =>
    cases it with
    | updateFields v => simp [setUpdateTrue, List.findSome?, pickUpdateVal]
    | element r =>
      have ht : t.any isUpdateItem = true := by simpa [isUpdateItem] using h
      simpa [setUpdateTrue, List.findSome?, pickUpdateVal] using ih ht

/-- Appending a true field-update element to a list without one makes it
read back true. -/
theorem findSome_append_update (items : List SettingsItem)
    (h : items.any isUpdateItem = false) :
    (items ++ [SettingsItem.updateFields true]).findSome? pickUpdateVal = some true := by
  induction items with
  | nil => simp [List.findSome?, pickUpdateVal]
  | cons it t ih =>
    cases it with
    | updateFields v => simp [isUpdateItem] at h
    | element r =>
      have ht : t.any isUpdateItem = false := by simpa [isUpdateItem] using h
      simpa [List.findSome?, pickUpdateVal] using ih ht

/-- The ensured settings list reads back a true update flag. -/
theorem ensure_update_fields_reads_true (items : List SettingsItem) :
    (ensure_update_fields items).findSome? pickUpdateVal = some true := by
  unfold ensure_update_fields
  by_cases h : items.any isUpdateItem
  · simpa [h] using findSome_map_setTrue items h
  · have h' : items.any isUpdateItem = false := by simpa using h
    simpa [h'] using findSome_append_update items h'

/-- Ensuring the update flag twice is the same as once. -/
theorem ensure_update_fields_idem (items : List SettingsItem) :
    ensure_update_fields (ensure_update_fields items) = ensure_update_fields items := by
  by_cases h : items.any isUpdateItem
  · have h1 : ensure_update_fields items = items.map setUpdateTrue := by
      simp [ensure_update_fields, h]
    have h2 : (items.map setUpdateTrue).any isUpdateItem = true := by
      rw [any_isUpdate_map_setTrue]; exact h
    have h3 : setUpdateTrue ∘ setUpdateTrue = setUpdateTrue := by
      funext it; cases it <;> rfl
    rw [h1]
    simp [ensure_update_fields, h2, List.map_map, h3]
  · have h' : items.any isUpdateItem = false := by simpa using h
    have h1 : ensure_update_fields items = items ++ [SettingsItem.updateFields true] := by
      simp [ensure_update_fields, h']
    have h2 : (items ++ [SettingsItem.updateFields true]).any isUpdateItem = true := by
      simp [List.any_append, isUpdateItem]
    rw [h1]
    simp [ensure_update_fields, h2, List.map_append, map_setTrue_id_of_no_update items h',
      setUpdateTrue]

/-- Patching preserves the entry name. -/
theorem patchEntry_name (e : ZipEntry) : (patchEntry e).name = e.name := by
  cases e with
  | mk n c => cases c <;> by_cases h : n = settingsEntryName <;> simp [patchEntry, h]

/-- Entries other than the settings entry are untouched. -/
theorem patchEntry_of_ne (e : ZipEntry) (h : e.name ≠ settingsEntryName) :
    patchEntry e = e := by
  simp [patchEntry, h]

/-- Patching one entry twice is the same as once. -/
theorem patchEntry_idem (e : ZipEntry) : patchEntry (patchEntry e) = patchEntry e := by
  cases e with
  | mk n c =>
    by_cases h : n = settingsEntryName
    · cases c with
      | settingsXml items => simp [patchEntry, h, ensure_update_fields_idem]
      | fileBytes r => simp [patchEntry, h]
    · simp [patchEntry, h]

/-- C8: the field-update post-processor is idempotent, preserves the
archive's length, leaves every non-settings entry byte-identical in
place, and makes the settings entry's update-on-open flag read true. -/
theorem enable_docx_update_fields_correct (archive : List ZipEntry) :
    enable_docx_update_fields (enable_docx_update_fields archive)
      = enable_docx_update_fields archive ∧
    (enable_docx_update_fields archive).length = archive.length ∧
    (∀ i e, archive.get? i = some e → e.name ≠ settingsEntryName →
      (enable_docx_update_fields archive).get? i = some e) ∧
    (∀ items,
      archive.find? (fun e => e.name = settingsEntryName)
        = some { name := settingsEntryName, content := EntryContent.settingsXml items } →
      readUpdateFlag (enable_docx_update_fields archive) = some true) := by
  refine ⟨?_, ?_, ?_, ?_⟩
  · unfold enable_docx_update_fields
    rw [List.map_map]
    have h : patchEntry ∘ patchEntry = patchEntry := by
      funext e; exact patchEntry_idem e
    rw [h]
  · simp [enable_docx_update_fields]
  · intro i e hget hne
    unfold enable_docx_update_fields
    rw [List.get?_map, hget]
    simp [patchEntry_of_ne e hne]
  · intro items hfind
    unfold readUpdateFlag enable_docx_update_fields
    have hfm : (archive.map patchEntry).find? (fun e => e.name = settingsEntryName)
        = (archive.find? (fun e => e.name = settingsEntryName)).map patchEntry := by
      have hp : ((fun e => decide (e.name = settingsEntryName)) ∘ patchEntry)
          = (fun e : ZipEntry => decide (e.name = settingsEntryName)) := by
        funext e
        simp [Function.comp, patchEntry_name]
      rw [List.find?_map, hp]
    rw [hfm, hfind]
    simpa [patchEntry] using ensure_update_fields_reads_true items

/-- Witness for C8 on a concrete two-entry archive (mirroring the test
fixture): after processing, the settings flag reads true. -/
theorem enable_docx_update_fields_correct_witness :
    readUpdateFlag (enable_docx_update_fields
      [{ name := settingsEntryName,
         content := EntryContent.settingsXml [SettingsItem.element "zoom".data] },
       { name := "docProps/core.xml".data,
         content := EntryContent.fileBytes "<core/>".data }]) = some true := by
  exact (enable_docx_update_fields_correct _).2.2.2
    [SettingsItem.element "zoom".data] (by decide)

/-- Dropping leading whitespace twice is the same as once. -/
theorem lstrip_idem (s : Str) : lstrip (lstrip s) = lstrip s := by
  induction s with
  | nil => rfl
  | cons c t ih =>
    by_cases hc : isWsChar c
    · simp [lstrip, List.dropWhile_cons, hc] at ih ⊢
      exact ih
    · simp [lstrip, List.dropWhile_cons, hc]

/-- A stripped string has no leading whitespace left to drop. -/
theorem lstrip_pyStrip (s : Str) : lstrip (pyStrip s) = pyStrip s := by
  unfold pyStrip
  exact lstrip_idem (rstrip s)

/-- How `lstrip` distributes over append. -/
theorem lstrip_append (a b : Str) :
    lstrip (a ++ b) = if lstrip a = [] then lstrip b else lstrip a ++ b := by
  induction a with
  | nil => simp [lstrip]
  | cons c t ih =>
    by_cases hc : isWsChar c
    · simpa [lstrip, List.dropWhile_cons, hc] using ih
    · simp [lstrip, List.dropWhile_cons, hc]

/-- The heading test on a cons cell only looks at the head. -/
theorem pyStartswith_hash_cons (c : Char) (t : Str) :
    pyStartswith ['#'] (c :: t) = ('#' == c) := by
  simp [pyStartswith, List.isPrefixOf]

/-- The heading test ignores everything after a non-empty front part. -/
theorem pyStartswith_hash_append (y x : Str) (h : y ≠ []) :
    pyStartswith ['#'] (y ++ x) = pyStartswith ['#'] y := by
  cases y with
  | nil => exact absurd rfl h
  | cons c t => simp [pyStartswith, List.isPrefixOf]

/-- Lstrip keeps a string whose head is not whitespace. -/
theorem lstrip_cons_not_ws (c : Char) (t : Str) (h : isWsChar c = false) :
    lstrip (c :: t) = c :: t := by
  simp [lstrip, List.dropWhile_cons, h]

/-- A synthesized heading line (plus anything after it) is never the
page-break separator. -/
theorem cons_hash_ne_separator (rest : Str) : ('#' :: rest) ≠ pageBreakSeparator := by
  intro heq
  have h1 : ('#' :: rest).headD ' ' = pageBreakSeparator.headD ' ' := by rw [heq]
  have h2 : pageBreakSeparator.headD ' ' = '\n' := by decide
  rw [h2] at h1
  simp only [List.headD_cons] at h1
  exact absurd h1 (by decide)

/-- No normalised page chunk equals the page-break separator. -/
theorem addHeading_ne_separator (title content : Str) :
    addHeading title content ≠ pageBreakSeparator := by
  unfold addHeading
  by_cases h : pyStartswith ['#'] (lstrip content)
  · simp [h]
    intro heq
    rw [heq] at h
    exact absurd h (by decide)
  · have h' : pyStartswith ['#'] (lstrip content) = false := by simpa using h
    simp [h']
    by_cases hc : content = []
    · simpa [hc] using cons_hash_ne_separator (' ' :: title)
    · simpa [hc, headingLine] using cons_hash_ne_separator (' ' :: title ++ '\n' :: '\n' :: content)

/-- Interspersing a separator between n list entries, none of which is
the separator itself, leaves exactly n - 1 separator occurrences. -/
theorem count_intersperse (sep : Str) (l : List Str) (h : ∀ x ∈ l, x ≠ sep) :
    (List.intersperse sep l).count sep = l.length - 1 := by
  induction l with
  | nil => simp
  | cons a t ih =>
    cases t with
    | nil =>
      have ha : a ≠ sep := h a (by simp)
      simp [List.count_cons, ha]
    | cons b t2 =>
      have ha : a ≠ sep := h a (by simp)
      have ht : ∀ x ∈ b :: t2, x ≠ sep := fun x hx => h x (by simp [hx])
      have := ih ht
      simp [List.intersperse, List.count_cons, ha, this]

/-- A successful page chunk is the heading normalisation of some
content. -/
theorem pageChunk_ok_form (cfg : Config) (digest : DigestOracle) (render : RenderOracle)
    (decomp : DecompOracle) (outputDir : Str) (page : CollectedPage) (st : RenderState)
    (c : Str) (st' : RenderState)
    (h : pageChunk cfg digest render decomp outputDir page st = (Except.ok c, st')) :
    ∃ content, c = addHeading page.title content := by
  unfold pageChunk at h
  split at h
  · simp only [Prod.mk.injEq, Except.ok.injEq] at h
    exact ⟨_, h.1.symm⟩
  · simp at h

/-- Successful chunk lists have one chunk per page, each a heading
normalisation. -/
theorem pageChunks_ok_form (cfg : Config) (digest : DigestOracle) (render : RenderOracle)
    (decomp : DecompOracle) (outputDir : Str) :
    ∀ (pages : List CollectedPage) (st : RenderState) (chunks : List Str) (st' : RenderState),
      pageChunks cfg digest render decomp outputDir pages st = (Except.ok chunks, st') →
      chunks.length = pages.length ∧
      ∀ c ∈ chunks, ∃ title content, c = addHeading title content := by
  intro pages
  induction pages with
  | nil =>
    intro st chunks st' h
    simp only [pageChunks, Prod.mk.injEq, Except.ok.injEq] at h
    simp [← h.1]
  | cons p rest ih =>
    intro st chunks st' h
    rw [pageChunks] at h
    rcases hpc : pageChunk cfg digest render decomp outputDir p st with ⟨r1, st1⟩
    rw [hpc] at h
    cases r1 with
    | error e => simp at h
    | ok c0 =>
      dsimp only at h
      rcases hrest : pageChunks cfg digest render decomp outputDir rest st1 with ⟨r2, st2⟩
      rw [hrest] at h
      cases r2 with
      | error e => simp at h
      | ok cs0 =>
        simp only [Prod.mk.injEq, Except.ok.injEq] at h
        obtain ⟨h1, h2⟩ := h
        subst h1
        obtain ⟨hlen, hform⟩ := ih st1 cs0 st2 hrest
        refine ⟨by simp [hlen], ?_⟩
        intro x hx
        rcases List.mem_cons.mp hx with hx | hx
        · obtain ⟨content, hc⟩ :=
            pageChunk_ok_form cfg digest render decomp outputDir p st c0 st1 hpc
          exact ⟨p.title, content, hx.trans hc⟩
        · exact hform x hx

/-- In preserve mode the chunk loop is stateless and purely positional. -/
theorem pageChunks_preserve (cfg : Config) (digest : DigestOracle) (render : RenderOracle)
    (decomp : DecompOracle) (outputDir : Str)
    (hmode : cfg.mermaid_mode = MermaidMode.preserve) :
    ∀ (pages : List CollectedPage) (st : RenderState),
      pageChunks cfg digest render decomp outputDir pages st
        = (Except.ok (pages.map (fun p => addHeading p.title (pyStrip p.markdown))), st) := by
  intro pages
  induction pages with
  | nil => intro st; rfl
  | cons p rest ih =>
    intro st
    have hpc : pageChunk cfg digest render decomp outputDir p st
        = (Except.ok (addHeading p.title (pyStrip p.markdown)), st) := by
      simp [pageChunk, pageContent, hmode]
    simp [pageChunks, hpc, ih st]

/-- C2: for a non-empty page sequence whose chunk loop succeeds, the
aggregated document is exactly the per-page chunks in collection order
with one page-break separator interleaved between each adjacent pair
(N pages carry N - 1 separator occurrences) and a single trailing newline
appended; in preserve mode the chunks are positionally the normalised
page bodies. -/
theorem build_combined_markdown_structure (cfg : Config) (digest : DigestOracle)
    (render : RenderOracle) (decomp : DecompOracle) (outputDir : Str)
    (pages : List CollectedPage) (st : RenderState) (chunks : List Str) (st' : RenderState)
    (hne : pages ≠ [])
    (hok : pageChunks cfg digest render decomp outputDir pages st = (Except.ok chunks, st')) :
    build_combined_markdown cfg digest render decomp outputDir pages st
      = (Except.ok ((List.intersperse pageBreakSeparator chunks).flatten ++ ['\n']), st') ∧
    chunks.length = pages.length ∧
    (List.intersperse pageBreakSeparator chunks).count pageBreakSeparator
      = pages.length - 1 ∧
    (cfg.mermaid_mode = MermaidMode.preserve →
      chunks = pages.map (fun p => addHeading p.title (pyStrip p.markdown))) := by
  obtain ⟨hlen, hform⟩ := pageChunks_ok_form cfg digest render decomp outputDir pages st
    chunks st' hok
  refine ⟨?_, hlen, ?_, ?_⟩
  · simp [build_combined_markdown, hok, List.intercalate]
  · have hne' : ∀ x ∈ chunks, x ≠ pageBreakSeparator := by
      intro x hx
      obtain ⟨title, content, hc⟩ := hform x hx
      rw [hc]
      exact addHeading_ne_separator title content
    rw [count_intersperse pageBreakSeparator chunks hne', hlen]
  · intro hmode
    have := pageChunks_preserve cfg digest render decomp outputDir hmode pages st
    rw [this] at hok
    simp only [Prod.mk.injEq, Except.ok.injEq] at hok
    exact hok.1.symm

/-- Witness for C2 on two concrete pages: the first keeps its own
heading, the second gets a synthesized one, and exactly one separator is
interleaved. -/
theorem build_combined_markdown_structure_witness :
    build_combined_markdown defaultConfig (fun _ => []) (fun _ => none)
        (fun s => [DocPiece.text s]) "/out".data
        [{ src_path := "a.md".data, title := "A".data, markdown := "# One".data },
         { src_path := "b.md".data, title := "B".data, markdown := "two".data }]
        emptyRenderState
      = (Except.ok ((List.intersperse pageBreakSeparator
          ["# One".data, "# B\n\ntwo".data]).flatten ++ ['\n']), emptyRenderState) ∧
    (List.intersperse pageBreakSeparator
        ["# One".data, "# B\n\ntwo".data]).count pageBreakSeparator = 1 := by
  have h := build_combined_markdown_structure defaultConfig (fun _ => []) (fun _ => none)
    (fun s => [DocPiece.text s]) "/out".data
    [{ src_path := "a.md".data, title := "A".data, markdown := "# One".data },
     { src_path := "b.md".data, title := "B".data, markdown := "two".data }]
    emptyRenderState ["# One".data, "# B\n\ntwo".data] emptyRenderState
    (by simp) (by rfl)
  exact ⟨h.1, by simpa using h.2.2.1⟩

/-- The full matched block begins with a backtick. -/
theorem matchGroup0_cons (m : MermaidMatch) :
    matchGroup0 m = '`' :: ("``mermaid".data ++ m.ws ++ m.body ++ "```".data) := by
  have h0 : "```mermaid".data = '`' :: "``mermaid".data := by decide
  simp [matchGroup0, h0]

/-- The image replacement begins with an exclamation mark. -/
theorem mermaidImageRef_cons (outputDir d : Str) :
    mermaidImageRef outputDir d
      = '!' :: ("[Mermaid diagram](".data ++ pngPath outputDir d ++ ")".data) := by
  have h0 : "![Mermaid diagram](".data = '!' :: "[Mermaid diagram](".data := by decide
  simp [mermaidImageRef, h0]

/-- A string headed by a visible non-hash character never passes the
heading test, whatever follows. -/
theorem startsHash_lstrip_cons_append (c : Char) (r x : Str)
    (hc : isWsChar c = false) (hh : ('#' == c) = false) :
    pyStartswith ['#'] (lstrip ((c :: r) ++ x)) = false := by
  rw [List.cons_append, lstrip_cons_not_ws c (r ++ x) hc, pyStartswith_hash_cons]
  exact hh

/-- A successful single-match replacement yields either the original
block or an image reference. -/
theorem replaceOneMatch_ok_form (cfg : Config) (digest : DigestOracle)
    (render : RenderOracle) (outputDir : Str) (m : MermaidMatch) (st : RenderState)
    (o : Str) (st' : RenderState)
    (h : replaceOneMatch cfg digest render outputDir m st = (Except.ok o, st')) :
    o = matchGroup0 m ∨ ∃ d, o = mermaidImageRef outputDir d := by
  simp only [replaceOneMatch] at h
  split at h
  · simp only [Prod.mk.injEq, Except.ok.injEq] at h
    exact Or.inl h.1.symm
  · split at h
    · simp only [Prod.mk.injEq, Except.ok.injEq] at h
      exact Or.inr ⟨_, h.1.symm⟩
    · split at h
      · simp only [Prod.mk.injEq, Except.ok.injEq] at h
        exact Or.inr ⟨_, h.1.symm⟩
      · split at h
        · simp at h
        · simp only [Prod.mk.injEq, Except.ok.injEq] at h
          exact Or.inl h.1.symm

/-- Substitution preserves whether the page begins (after `lstrip`) with
a heading marker. -/
theorem processPieces_head_hash (cfg : Config) (digest : DigestOracle)
    (render : RenderOracle) (outputDir : Str) :
    ∀ (doc : List DocPiece) (st : RenderState) (outs : List Str) (st' : RenderState),
      processPieces cfg digest render outputDir doc st = (Except.ok outs, st') →
      pyStartswith ['#'] (lstrip outs.flatten)
        = pyStartswith ['#'] (lstrip (renderDoc doc)) := by
  intro doc
  induction doc with
  | nil =>
    intro st outs st' h
    simp only [processPieces, Prod.mk.injEq, Except.ok.injEq] at h
    rw [← h.1]
    simp [renderDoc]
  | cons piece rest ih =>
    intro st outs st' h
    cases piece with
    | text s =>
      rw [processPieces] at h
      rcases hrest : processPieces cfg digest render outputDir rest st with ⟨r2, st2⟩
      rw [hrest] at h
      cases r2 with
      | error e => simp at h
      | ok outs2 =>
        simp only [Prod.mk.injEq, Except.ok.injEq] at h
        obtain ⟨h1, h2⟩ := h
        rw [← h1]
        have hrd : renderDoc (DocPiece.text s :: rest) = s ++ renderDoc rest := by
          simp [renderDoc, pieceText]
        have hfl : (s :: outs2).flatten = s ++ outs2.flatten := rfl
        rw [hfl, hrd, lstrip_append s outs2.flatten, lstrip_append s (renderDoc rest)]
        by_cases hs : lstrip s = []
        · rw [if_pos hs, if_pos hs]
          exact ih st outs2 st2 hrest
        · rw [if_neg hs, if_neg hs, pyStartswith_hash_append _ _ hs,
            pyStartswith_hash_append _ _ hs]
    | mermaid m =>
      rw [processPieces] at h
      rcases hone : replaceOneMatch cfg digest render outputDir m st with ⟨r1, st1⟩
      rw [hone] at h
      cases r1 with
      | error e => simp at h
      | ok o =>
        dsimp only at h
        rcases hrest : processPieces cfg digest render outputDir rest st1 with ⟨r2, st2⟩
        rw [hrest] at h
        cases r2 with
        | error e => simp at h
        | ok outs2 =>
          simp only [Prod.mk.injEq, Except.ok.injEq] at h
          obtain ⟨h1, h2⟩ := h
          rw [← h1]
          have hrd : renderDoc (DocPiece.mermaid m :: rest)
              = matchGroup0 m ++ renderDoc rest := by
            simp [renderDoc, pieceText]
          have hfl : (o :: outs2).flatten = o ++ outs2.flatten := rfl
          rw [hfl, hrd]
          have hR : pyStartswith ['#'] (lstrip (matchGroup0 m ++ renderDoc rest)) = false := by
            rw [matchGroup0_cons]
            exact startsHash_lstrip_cons_append '`' _ _ (by decide) (by decide)
          rw [hR]
          rcases replaceOneMatch_ok_form cfg digest render outputDir m st o st1 hone with
            ho | ⟨d, ho⟩
          · rw [ho, matchGroup0_cons]
            exact startsHash_lstrip_cons_append '`' _ _ (by decide) (by decide)
          · rw [ho, mermaidImageRef_cons]
            exact startsHash_lstrip_cons_append '!' _ _ (by decide) (by decide)

/-- Substitution preserves emptiness of the page text. -/
theorem processPieces_flatten_nil (cfg : Config) (digest : DigestOracle)
    (render : RenderOracle) (outputDir : Str) :
    ∀ (doc : List DocPiece) (st : RenderState) (outs : List Str) (st' : RenderState),
      processPieces cfg digest render outputDir doc st = (Except.ok outs, st') →
      (outs.flatten = [] ↔ renderDoc doc = []) := by
  intro doc
  induction doc with
  | nil =>
    intro st outs st' h
    simp only [processPieces, Prod.mk.injEq, Except.ok.injEq] at h
    rw [← h.1]
    simp [renderDoc]
  | cons piece rest ih =>
    intro st outs st' h
    cases piece with
    | text s =>
      rw [processPieces] at h
      rcases hrest : processPieces cfg digest render outputDir rest st with ⟨r2, st2⟩
      rw [hrest] at h
      cases r2 with
      | error e => simp at h
      | ok outs2 =>
        simp only [Prod.mk.injEq, Except.ok.injEq] at h
        obtain ⟨h1, h2⟩ := h
        rw [← h1]
        have hrd : renderDoc (DocPiece.text s :: rest) = s ++ renderDoc rest := by
          simp [renderDoc, pieceText]
        have hfl : (s :: outs2).flatten = s ++ outs2.flatten := rfl
        rw [hfl, hrd]
        simp only [List.append_eq_nil]
        rw [ih st outs2 st2 hrest]
    | mermaid m =>
      rw [processPieces] at h
      rcases hone : replaceOneMatch cfg digest render outputDir m st with ⟨r1, st1⟩
      rw [hone] at h
      cases r1 with
      | error e => simp at h
      | ok o =>
        dsimp only at h
        rcases hrest : processPieces cfg digest render outputDir rest st1 with ⟨r2, st2⟩
        rw [hrest] at h
        cases r2 with
        | error e => simp at h
        | ok outs2 =>
          simp only [Prod.mk.injEq, Except.ok.injEq] at h
          obtain ⟨h1, h2⟩ := h
          rw [← h1]
          have hrd : renderDoc (DocPiece.mermaid m :: rest)
              = matchGroup0 m ++ renderDoc rest := by
            simp [renderDoc, pieceText]
          have hfl : (o :: outs2).flatten = o ++ outs2.flatten := rfl
          have hone' : o ≠ [] := by
            rcases replaceOneMatch_ok_form cfg digest render outputDir m st o st1 hone with
              ho | ⟨d, ho⟩
            · rw [ho, matchGroup0_cons]; exact List.cons_ne_nil _ _
            · rw [ho, mermaidImageRef_cons]; exact List.cons_ne_nil _ _
          have hg : matchGroup0 m ≠ [] := by
            rw [matchGroup0_cons]; exact List.cons_ne_nil _ _
          rw [hfl, hrd]
          simp [List.append_eq_nil, hone', hg]

/-- The whole block substitution preserves the heading test and
emptiness of the page text. -/
theorem replace_mermaid_blocks_facts (cfg : Config) (digest : DigestOracle)
    (render : RenderOracle) (outputDir : Str) (doc : List DocPiece) (st : RenderState)
    (s' : Str) (st' : RenderState)
    (h : replace_mermaid_blocks cfg digest render outputDir doc st = (Except.ok s', st')) :
    pyStartswith ['#'] (lstrip s') = pyStartswith ['#'] (lstrip (renderDoc doc)) ∧
    (s' = [] ↔ renderDoc doc = []) := by
  unfold replace_mermaid_blocks at h
  split at h
  · simp only [Prod.mk.injEq, Except.ok.injEq] at h
    rw [← h.1]
    exact ⟨rfl, Iff.rfl⟩
  · dsimp only at h
    rcases hpp : processPieces cfg digest render outputDir doc
        { st with mkdirs := st.mkdirs ++ [assetDir outputDir] } with ⟨r1, st1⟩
    rw [hpp] at h
    cases r1 with
    | error e => simp at h
    | ok outs =>
      simp only [Prod.mk.injEq, Except.ok.injEq] at h
      rw [← h.1]
      exact ⟨processPieces_head_hash cfg digest render outputDir doc _ outs st1 hpp,
        processPieces_flatten_nil cfg digest render outputDir doc _ outs st1 hpp⟩

/-- The processed page content begins with a heading marker exactly when
the trimmed page body does, and is empty exactly when the trimmed body
is. -/
theorem pageContent_facts (cfg : Config) (digest : DigestOracle) (render : RenderOracle)
    (decomp : DecompOracle) (outputDir : Str) (page : CollectedPage) (st : RenderState)
    (content : Str) (st' : RenderState)
    (hvalid : renderDoc (decomp (pyStrip page.markdown)) = pyStrip page.markdown)
    (h : pageContent cfg digest render decomp outputDir page st = (Except.ok content, st')) :
    pyStartswith ['#'] (lstrip content) = pyStartswith ['#'] (pyStrip page.markdown) ∧
    (content = [] ↔ pyStrip page.markdown = []) := by
  unfold pageContent at h
  by_cases hm : cfg.mermaid_mode = MermaidMode.pre_render
  · rw [if_pos hm] at h
    obtain ⟨hh, he⟩ := replace_mermaid_blocks_facts cfg digest render outputDir
      (decomp (pyStrip page.markdown)) st content st' h
    rw [hvalid] at hh he
    rw [lstrip_pyStrip] at hh
    exact ⟨hh, he⟩
  · rw [if_neg hm] at h
    simp only [Prod.mk.injEq, Except.ok.injEq] at h
    rw [← h.1, lstrip_pyStrip]
    exact ⟨rfl, Iff.rfl⟩

/-- C3: a collected page whose trimmed body already starts with a heading
marker keeps its content without a synthesized heading; a page whose
trimmed body does not gets exactly one synthesized heading line built
from its title prepended; and a page whose body is empty after trimming
becomes the synthesized heading alone. -/
theorem pageChunk_heading_normalisation (cfg : Config) (digest : DigestOracle)
    (render : RenderOracle) (decomp : DecompOracle) (outputDir : Str)
    (page : CollectedPage) (st : RenderState) (c : Str) (st' : RenderState)
    (hvalid : renderDoc (decomp (pyStrip page.markdown)) = pyStrip page.markdown)
    (hok : pageChunk cfg digest render decomp outputDir page st = (Except.ok c, st')) :
    ∃ content st2,
      pageContent cfg digest render decomp outputDir page st = (Except.ok content, st2) ∧
      c = addHeading page.title content ∧
      (pyStartswith ['#'] (pyStrip page.markdown) = true → c = content) ∧
      (pyStartswith ['#'] (pyStrip page.markdown) = false → pyStrip page.markdown ≠ [] →
        c = headingLine page.title ++ '\n' :: '\n' :: content ∧
        pyStartswith ['#'] (lstrip content) = false ∧ content ≠ []) ∧
      (pyStrip page.markdown = [] → c = headingLine page.title) := by
  unfold pageChunk at hok
  rcases hpcnt : pageContent cfg digest render decomp outputDir page st with ⟨r1, st2⟩
  rw [hpcnt] at hok
  cases r1 with
  | error e => simp at hok
  | ok content =>
    simp only [Prod.mk.injEq, Except.ok.injEq] at hok
    obtain ⟨h1, h2⟩ := hok
    obtain ⟨hh, he⟩ := pageContent_facts cfg digest render decomp outputDir page st
      content st2 hvalid hpcnt
    refine ⟨content, st2, rfl, h1.symm, ?_, ?_, ?_⟩
    · intro ht
      rw [← h1]
      unfold addHeading
      rw [hh, ht]
      simp
    · intro hf hne
      have hcne : content ≠ [] := fun hcc => hne (he.mp hcc)
      refine ⟨?_, ?_, hcne⟩
      · rw [← h1]
        unfold addHeading
        rw [hh, hf]
        simp [hcne]
      · rw [hh]; exact hf
    · intro hemp
      have hc0 : content = [] := he.mpr hemp
      rw [← h1]
      simp [addHeading, hc0, lstrip, pyStartswith, List.isPrefixOf]

/-- Witness for C3 on a concrete page without a heading: the chunk is the
synthesized heading line, two newlines, then the body. -/
theorem pageChunk_heading_normalisation_witness :
    ∃ content st2,
      pageContent defaultConfig (fun _ => []) (fun _ => none)
          (fun s => [DocPiece.text s]) "/out".data
          { src_path := "b.md".data, title := "B".data, markdown := "two".data }
          emptyRenderState
        = (Except.ok content, st2) ∧
      ("# B\n\ntwo".data : Str) = headingLine "B".data ++ '\n' :: '\n' :: content := by
  obtain ⟨content, st2, hp, hc, ht, hf, he⟩ :=
    pageChunk_heading_normalisation defaultConfig (fun _ => []) (fun _ => none)
      (fun s => [DocPiece.text s]) "/out".data
      { src_path := "b.md".data, title := "B".data, markdown := "two".data }
      emptyRenderState "# B\n\ntwo".data emptyRenderState (by decide) (by rfl)
  exact ⟨content, st2, hp, (hf (by decide) (by decide)).1⟩

/-- An empty block (after trimming) is always returned verbatim with no
state change. -/
theorem replaceOneMatch_empty (cfg : Config) (digest : DigestOracle)
    (render : RenderOracle) (outputDir : Str) (m : MermaidMatch) (st : RenderState)
    (h : pyStrip m.body = []) :
    replaceOneMatch cfg digest render outputDir m st = (Except.ok (matchGroup0 m), st) := by
  simp [replaceOneMatch, h]

/-- Without fail-fast, a single-match replacement never raises. -/
theorem replaceOneMatch_no_error (cfg : Config) (digest : DigestOracle)
    (render : RenderOracle) (outputDir : Str) (m : MermaidMatch) (st : RenderState)
    (hfail : cfg.mermaid_fail_on_error = false) :
    ∃ o st', replaceOneMatch cfg digest render outputDir m st = (Except.ok o, st') := by
  by_cases h1 : pyStrip m.body = []
  · exact ⟨matchGroup0 m, st, replaceOneMatch_empty cfg digest render outputDir m st h1⟩
  · by_cases h2 : digest (pyStrip m.body) ∈ st.pngs
    · exact ⟨mermaidImageRef outputDir (digest (pyStrip m.body)), st, by
        simp [replaceOneMatch, h1, h2]⟩
    · cases hrc : render (pyStrip m.body) with
      | none =>
        refine ⟨mermaidImageRef outputDir (digest (pyStrip m.body)),
          { st with pngs := st.pngs ++ [digest (pyStrip m.body)],
                    calls := st.calls ++ [pyStrip m.body] }, ?_⟩
        simp [replaceOneMatch, h1, h2, hrc]
      | some e =>
        refine ⟨matchGroup0 m,
          { st with calls := st.calls ++ [pyStrip m.body],
                    warnings := st.warnings ++ [digest (pyStrip m.body)] }, ?_⟩
        simp [replaceOneMatch, h1, h2, hrc, hfail]

/-- Without fail-fast, substitution of a whole document never raises. -/
theorem processPieces_no_error (cfg : Config) (digest : DigestOracle)
    (render : RenderOracle) (outputDir : Str)
    (hfail : cfg.mermaid_fail_on_error = false) :
    ∀ (doc : List DocPiece) (st : RenderState),
      ∃ outs st', processPieces cfg digest render outputDir doc st = (Except.ok outs, st') := by
  intro doc
  induction doc with
  | nil => intro st; exact ⟨[], st, rfl⟩
  | cons piece rest ih =>
    intro st
    cases piece with
    | text s =>
      obtain ⟨outs, st', hr⟩ := ih st
      exact ⟨s :: outs, st', by rw [processPieces, hr]⟩
    | mermaid m =>
      obtain ⟨o, st1, ho⟩ :=
        replaceOneMatch_no_error cfg digest render outputDir m st hfail
      obtain ⟨outs, st', hr⟩ := ih st1
      exact ⟨o :: outs, st', by rw [processPieces, ho]; dsimp only; rw [hr]⟩

/-- A successful substitution yields one output per piece. -/
theorem processPieces_length (cfg : Config) (digest : DigestOracle)
    (render : RenderOracle) (outputDir : Str) :
    ∀ (doc : List DocPiece) (st : RenderState) (outs : List Str) (st' : RenderState),
      processPieces cfg digest render outputDir doc st = (Except.ok outs, st') →
      outs.length = doc.length := by
  intro doc
  induction doc with
  | nil =>
    intro st outs st' h
    simp only [processPieces, Prod.mk.injEq, Except.ok.injEq] at h
    simp [← h.1]
  | cons piece rest ih =>
    intro st outs st' h
    cases piece with
    | text s =>
      rw [processPieces] at h
      rcases hrest : processPieces cfg digest render outputDir rest st with ⟨r2, st2⟩
      rw [hrest] at h
      cases r2 with
      | error e => simp at h
      | ok outs2 =>
        simp only [Prod.mk.injEq, Except.ok.injEq] at h
        rw [← h.1]
        simp [ih st outs2 st2 hrest]
    | mermaid m =>
      rw [processPieces] at h
      rcases hone : replaceOneMatch cfg digest render outputDir m st with ⟨r1, st1⟩
      rw [hone] at h
      cases r1 with
      | error e => simp at h
      | ok o =>
        dsimp only at h
        rcases hrest : processPieces cfg digest render outputDir rest st1 with ⟨r2, st2⟩
        rw [hrest] at h
        cases r2 with
        | error e => simp at h
        | ok outs2 =>
          simp only [Prod.mk.injEq, Except.ok.injEq] at h
          rw [← h.1]
          simp [ih st1 outs2 st2 hrest]

/-- Substitution over a concatenation runs the front first and threads
the state into the back. -/
theorem processPieces_append (cfg : Config) (digest : DigestOracle)
    (render : RenderOracle) (outputDir : Str) :
    ∀ (xs ys : List DocPiece) (st : RenderState),
      processPieces cfg digest render outputDir (xs ++ ys) st
        = match processPieces cfg digest render outputDir xs st with
          | (Except.ok o1, st1) =>
            match processPieces cfg digest render outputDir ys st1 with
            | (Except.ok o2, st2) => (Except.ok (o1 ++ o2), st2)
            | (Except.error e, st2) => (Except.error e, st2)
          | (Except.error e, st1) => (Except.error e, st1) := by
  intro xs
  induction xs with
  | nil =>
    intro ys st
    rcases h : processPieces cfg digest render outputDir ys st with ⟨r, st2⟩
    cases r <;> simp [processPieces, h]
  | cons piece rest ih =>
    intro ys st
    cases piece with
    | text s =>
      rcases h1 : processPieces cfg digest render outputDir rest st with ⟨r1, st1⟩
      cases r1 with
      | ok o1 =>
        rcases h2 : processPieces cfg digest render outputDir ys st1 with ⟨r2, st2⟩
        cases r2 with
        | ok o2 => simp [processPieces, ih, h1, h2]
        | error e => simp [processPieces, ih, h1, h2]
      | error e => simp [processPieces, ih, h1]
    | mermaid m =>
      rcases hone : replaceOneMatch cfg digest render outputDir m st with ⟨ro, st0⟩
      cases ro with
      | ok o =>
        rcases h1 : processPieces cfg digest render outputDir rest st0 with ⟨r1, st1⟩
        cases r1 with
        | ok o1 =>
          rcases h2 : processPieces cfg digest render outputDir ys st1 with ⟨r2, st2⟩
          cases r2 with
          | ok o2 => simp [processPieces, ih, hone, h1, h2]
          | error e => simp [processPieces, ih, hone, h1, h2]
        | error e => simp [processPieces, ih, hone, h1]
      | error e => simp [processPieces, hone]

/-- The replacement result and the cache afterwards depend only on the
cache beforehand (never on the call or warning logs). -/
theorem replaceOneMatch_pngs_congr (cfg : Config) (digest : DigestOracle)
    (render : RenderOracle) (outputDir : Str) (m : MermaidMatch)
    (sta stb : RenderState) (h : sta.pngs = stb.pngs) :
    (replaceOneMatch cfg digest render outputDir m sta).1
      = (replaceOneMatch cfg digest render outputDir m stb).1 ∧
    ((replaceOneMatch cfg digest render outputDir m sta).2).pngs
      = ((replaceOneMatch cfg digest render outputDir m stb).2).pngs := by
  by_cases h1 : pyStrip m.body = []
  · simp [replaceOneMatch, h1, h]
  · by_cases h2 : digest (pyStrip m.body) ∈ stb.pngs
    · have h2a : digest (pyStrip m.body) ∈ sta.pngs := by rw [h]; exact h2
      simp [replaceOneMatch, h1, h2, h2a, h]
    · have h2a : digest (pyStrip m.body) ∉ sta.pngs := by rw [h]; exact h2
      cases hrc : render (pyStrip m.body) with
      | none => simp [replaceOneMatch, h1, h2, h2a, hrc, h]
      | some e =>
        by_cases h3 : cfg.mermaid_fail_on_error <;>
          simp [replaceOneMatch, h1, h2, h2a, hrc, h3, h]

/-- Whole-document substitution results depend only on the cache part of
the state. -/
theorem processPieces_pngs_congr (cfg : Config) (digest : DigestOracle)
    (render : RenderOracle) (outputDir : Str) :
    ∀ (doc : List DocPiece) (sta stb : RenderState), sta.pngs = stb.pngs →
      (processPieces cfg digest render outputDir doc sta).1
        = (processPieces cfg digest render outputDir doc stb).1 ∧
      ((processPieces cfg digest render outputDir doc sta).2).pngs
        = ((processPieces cfg digest render outputDir doc stb).2).pngs := by
  intro doc
  induction doc with
  | nil => intro sta stb h; simpa [processPieces] using h
  | cons piece rest ih =>
    intro sta stb h
    cases piece with
    | text s =>
      obtain ⟨ih1, ih2⟩ := ih sta stb h
      rcases ha : processPieces cfg digest render outputDir rest sta with ⟨ra, sta2⟩
      rcases hb : processPieces cfg digest render outputDir rest stb with ⟨rb, stb2⟩
      rw [ha, hb] at ih1 ih2
      simp only at ih1 ih2
      cases ra with
      | ok oa =>
        cases rb with
        | ok ob =>
          have hoab : oa = ob := by simpa using ih1
          subst hoab
          simp [processPieces, ha, hb, ih2]
        | error e => simp at ih1
      | error e =>
        cases rb with
        | ok ob => simp at ih1
        | error e2 =>
          have heab : e = e2 := by simpa using ih1
          subst heab
          simp [processPieces, ha, hb, ih2]
    | mermaid m =>
      obtain ⟨c1, c2⟩ := replaceOneMatch_pngs_congr cfg digest render outputDir m sta stb h
      rcases ha : replaceOneMatch cfg digest render outputDir m sta with ⟨ra, sta1⟩
      rcases hb : replaceOneMatch cfg digest render outputDir m stb with ⟨rb, stb1⟩
      rw [ha, hb] at c1 c2
      simp only at c1 c2
      cases ra with
      | ok oa =>
        cases rb with
        | ok ob =>
          have hoab : oa = ob := by simpa using c1
          subst hoab
          obtain ⟨ih1, ih2⟩ := ih sta1 stb1 c2
          rcases hra : processPieces cfg digest render outputDir rest sta1 with ⟨r2a, sta2⟩
          rcases hrb : processPieces cfg digest render outputDir rest stb1 with ⟨r2b, stb2⟩
          rw [hra, hrb] at ih1 ih2
          simp only at ih1 ih2
          cases r2a with
          | ok o2a =>
            cases r2b with
            | ok o2b =>
              have ho2 : o2a = o2b := by simpa using ih1
              subst ho2
              simp [processPieces, ha, hb, hra, hrb, ih2]
            | error e => simp at ih1
          | error e =>
            cases r2b with
            | ok o2b => simp at ih1
            | error e2 =>
              have he2 : e = e2 := by simpa using ih1
              subst he2
              simp [processPieces, ha, hb, hra, hrb, ih2]
        | error e => simp at c1
      | error e =>
        cases rb with
        | ok ob => simp at c1
        | error e2 =>
          have heab : e = e2 := by simpa using c1
          subst heab
          simp [processPieces, ha, hb, c2]

/-- One replacement only ever appends to the warning log. -/
theorem replaceOneMatch_warnings_mono (cfg : Config) (digest : DigestOracle)
    (render : RenderOracle) (outputDir : Str) (m : MermaidMatch) (st : RenderState) :
    st.warnings <+: ((replaceOneMatch cfg digest render outputDir m st).2).warnings := by
  by_cases h1 : pyStrip m.body = []
  · simp [replaceOneMatch, h1]
  · by_cases h2 : digest (pyStrip m.body) ∈ st.pngs
    · simp [replaceOneMatch, h1, h2]
    · cases hrc : render (pyStrip m.body) with
      | none => simp [replaceOneMatch, h1, h2, hrc]
      | some e =>
        by_cases h3 : cfg.mermaid_fail_on_error <;>
          simp [replaceOneMatch, h1, h2, hrc, h3, List.prefix_append]

/-- Whole-document substitution only ever appends to the warning log. -/
theorem processPieces_warnings_mono (cfg : Config) (digest : DigestOracle)
    (render : RenderOracle) (outputDir : Str) :
    ∀ (doc : List DocPiece) (st : RenderState),
      st.warnings <+: ((processPieces cfg digest render outputDir doc st).2).warnings := by
  intro doc
  induction doc with
  | nil => intro st; simp [processPieces]
  | cons piece rest ih =>
    intro st
    cases piece with
    | text s =>
      rcases h1 : processPieces cfg digest render outputDir rest st with ⟨r1, st1⟩
      have := ih st
      rw [h1] at this
      cases r1 <;> simpa [processPieces, h1] using this
    | mermaid m =>
      have hone := replaceOneMatch_warnings_mono cfg digest render outputDir m st
      rcases h0 : replaceOneMatch cfg digest render outputDir m st with ⟨r0, st0⟩
      rw [h0] at hone
      cases r0 with
      | ok o =>
        have hrest := ih st0
        rcases h1 : processPieces cfg digest render outputDir rest st0 with ⟨r1, st1⟩
        rw [h1] at hrest
        cases r1 <;>
          simpa [processPieces, h0, h1] using hone.trans hrest
      | error e => simpa [processPieces, h0] using hone

/-- C4: a diagram block that is empty after trimming is passed through
verbatim whenever substitution completes; for a non-empty block whose
render fails (not cached), fail-fast propagates the renderer's error and
aborts, while otherwise the failure is logged as a warning, that
occurrence keeps its original fenced text byte-for-byte, and every other
block of the document is processed exactly as it would be without the
failing block. -/
theorem mermaid_failure_handling (cfg : Config) (digest : DigestOracle)
    (render : RenderOracle) (outputDir : Str) (xs ys : List DocPiece)
    (m : MermaidMatch) (st : RenderState) :
    (∀ outs st', processPieces cfg digest render outputDir
        (xs ++ DocPiece.mermaid m :: ys) st = (Except.ok outs, st') →
      pyStrip m.body = [] → outs.get? xs.length = some (matchGroup0 m)) ∧
    (∀ outxs stx e, pyStrip m.body ≠ [] →
      processPieces cfg digest render outputDir xs st = (Except.ok outxs, stx) →
      digest (pyStrip m.body) ∉ stx.pngs →
      render (pyStrip m.body) = some e →
      ((cfg.mermaid_fail_on_error = true →
        ∃ stf, processPieces cfg digest render outputDir
          (xs ++ DocPiece.mermaid m :: ys) st = (Except.error e, stf)) ∧
       (cfg.mermaid_fail_on_error = false →
        ∃ outys sty sty2,
          processPieces cfg digest render outputDir (xs ++ DocPiece.mermaid m :: ys) st
            = (Except.ok (outxs ++ matchGroup0 m :: outys), sty) ∧
          digest (pyStrip m.body) ∈ sty.warnings ∧
          processPieces cfg digest render outputDir (xs ++ ys) st
            = (Except.ok (outxs ++ outys), sty2)))) := by
  constructor
  · intro outs st' h hempty
    rw [processPieces_append] at h
    rcases hx : processPieces cfg digest render outputDir xs st with ⟨rx, stx⟩
    rw [hx] at h
    cases rx with
    | error e => simp at h
    | ok outxs =>
      dsimp only at h
      rw [processPieces, replaceOneMatch_empty cfg digest render outputDir m stx hempty] at h
      dsimp only at h
      rcases hy : processPieces cfg digest render outputDir ys stx with ⟨ry, sty⟩
      rw [hy] at h
      cases ry with
      | error e => simp at h
      | ok outys =>
        simp only [Prod.mk.injEq, Except.ok.injEq] at h
        rw [← h.1]
        have hlen : outxs.length = xs.length :=
          processPieces_length cfg digest render outputDir xs st outxs stx hx
        rw [← hlen, List.get?_append_right (Nat.le_refl _)]
        simp
  · intro outxs stx e hne hx hnotc hrc
    constructor
    · intro hfail
      have hmid : replaceOneMatch cfg digest render outputDir m stx
          = (Except.error e, { stx with calls := stx.calls ++ [pyStrip m.body] }) := by
        simp [replaceOneMatch, hne, hnotc, hrc, hfail]
      refine ⟨{ stx with calls := stx.calls ++ [pyStrip m.body] }, ?_⟩
      rw [processPieces_append, hx]
      dsimp only
      rw [processPieces, hmid]
    · intro hfail
      have hmid : replaceOneMatch cfg digest render outputDir m stx
          = (Except.ok (matchGroup0 m),
             { stx with calls := stx.calls ++ [pyStrip m.body],
                        warnings := stx.warnings ++ [digest (pyStrip m.body)] }) := by
        simp [replaceOneMatch, hne, hnotc, hrc, hfail]
      obtain ⟨outys, sty, hys⟩ := processPieces_no_error cfg digest render outputDir hfail ys
        { stx with calls := stx.calls ++ [pyStrip m.body],
                   warnings := stx.warnings ++ [digest (pyStrip m.body)] }
      have hw := processPieces_warnings_mono cfg digest render outputDir ys
        { stx with calls := stx.calls ++ [pyStrip m.body],
                   warnings := stx.warnings ++ [digest (pyStrip m.body)] }
      rw [hys] at hw
      have hwmem : digest (pyStrip m.body) ∈ sty.warnings := by
        apply hw.subset
        simp
      have hcong := processPieces_pngs_congr cfg digest render outputDir ys
        { stx with calls := stx.calls ++ [pyStrip m.body],
                   warnings := stx.warnings ++ [digest (pyStrip m.body)] }
        stx (by simp)
      rcases hys2 : processPieces cfg digest render outputDir ys stx with ⟨ry2, sty2⟩
      have h1 := hcong.1
      rw [hys, hys2] at h1
      simp only at h1
      cases ry2 with
      | error e2 => simp at h1
      | ok oy2 =>
        have hoy : outys = oy2 := by simpa using h1
        subst hoy
        refine ⟨outys, sty, sty2, ?_, hwmem, ?_⟩
        · rw [processPieces_append, hx]
          dsimp only
          rw [processPieces, hmid]
          dsimp only
          rw [hys]
        · rw [processPieces_append, hx]
          dsimp only
          rw [hys2]

/-- Witness for C4 on a concrete document: the failing middle block stays
verbatim, its digest is logged, and the surrounding blocks process as if
it were absent. -/
theorem mermaid_failure_handling_witness :
    ∃ outys sty sty2,
      processPieces defaultConfig (fun s => s) (fun _ => some { msg := "err".data })
          "/out".data
          ([DocPiece.text "A".data] ++ DocPiece.mermaid ⟨[], "boom\n".data⟩
            :: [DocPiece.text "B".data]) emptyRenderState
        = (Except.ok (["A".data] ++ matchGroup0 ⟨[], "boom\n".data⟩ :: outys), sty) ∧
      ((fun s => s) (pyStrip "boom\n".data) : Str) ∈ sty.warnings ∧
      processPieces defaultConfig (fun s => s) (fun _ => some { msg := "err".data })
          "/out".data ([DocPiece.text "A".data] ++ [DocPiece.text "B".data]) emptyRenderState
        = (Except.ok (["A".data] ++ outys), sty2) := by
  have h := (mermaid_failure_handling defaultConfig (fun s => s)
    (fun _ => some { msg := "err".data }) "/out".data
    [DocPiece.text "A".data] [DocPiece.text "B".data]
    ⟨[], "boom\n".data⟩ emptyRenderState).2
    ["A".data] emptyRenderState { msg := "err".data }
    (by decide) (by rfl) (by decide) (by rfl)
  exact h.2 rfl

/-- States with the same cache and the same call count satisfy the
invariant. -/
theorem cacheInv_of_eq (digest : DigestOracle) (c : Str) (st st' : RenderState)
    (hp : st'.pngs = st.pngs) (hc : st'.calls.count c = st.calls.count c) :
    cacheInv digest c st st' := by
  refine ⟨fun d hd => hp ▸ hd, fun _ => hc, ?_, ?_⟩
  · rw [hc]; split <;> omega
  · intro hlt
    rw [hc] at hlt
    exact absurd hlt (lt_irrefl _)

/-- The invariant is reflexive. -/
theorem cacheInv_refl (digest : DigestOracle) (c : Str) (st : RenderState) :
    cacheInv digest c st st :=
  cacheInv_of_eq digest c st st rfl rfl

/-- The invariant composes along a build. -/
theorem cacheInv_trans (digest : DigestOracle) (c : Str) (st1 st2 st3 : RenderState)
    (h12 : cacheInv digest c st1 st2) (h23 : cacheInv digest c st2 st3) :
    cacheInv digest c st1 st3 := by
  obtain ⟨s12, e12, l12, m12⟩ := h12
  obtain ⟨s23, e23, l23, m23⟩ := h23
  refine ⟨fun d hd => s23 d (s12 d hd), ?_, ?_, ?_⟩
  · intro hmem
    rw [e23 (s12 _ hmem), e12 hmem]
  · by_cases hmem : digest c ∈ st1.pngs
    · rw [e23 (s12 _ hmem), e12 hmem]
      simp
    · rw [if_neg hmem]
      rw [if_neg hmem] at l12
      by_cases h2 : digest c ∈ st2.pngs
      · rw [e23 h2]
        omega
      · rw [if_neg h2] at l23
        have hc2 : st2.calls.count c ≤ st1.calls.count c := by
          by_contra hgt
          push_neg at hgt
          exact h2 (m12 hgt)
        omega
  · intro hlt
    by_cases h2 : st2.calls.count c < st3.calls.count c
    · exact m23 h2
    · have h12lt : st1.calls.count c < st2.calls.count c := by omega
      exact s23 _ (m12 h12lt)

/-- One replacement step never removes a cached digest. -/
theorem replaceOneMatch_pngs_mono (cfg : Config) (digest : DigestOracle)
    (render : RenderOracle) (outputDir : Str) (m : MermaidMatch) (st : RenderState) :
    ∀ d, d ∈ st.pngs → d ∈ ((replaceOneMatch cfg digest render outputDir m st).2).pngs := by
  intro d hd
  by_cases h1 : pyStrip m.body = []
  · simpa [replaceOneMatch, h1] using hd
  · by_cases h2 : digest (pyStrip m.body) ∈ st.pngs
    · simpa [replaceOneMatch, h1, h2] using hd
    · cases hrc : render (pyStrip m.body) with
      | none => simp [replaceOneMatch, h1, h2, hrc, List.mem_append, hd]
      | some e =>
        by_cases h3 : cfg.mermaid_fail_on_error
        · simpa [replaceOneMatch, h1, h2, hrc, h3] using hd
        · simpa [replaceOneMatch, h1, h2, hrc, h3] using hd

/-- When the renderer succeeds on a content, or the content's image is
already cached, one replacement step keeps the caching invariant for
it. -/
theorem replaceOneMatch_cacheInv (cfg : Config) (digest : DigestOracle)
    (render : RenderOracle) (outputDir : Str) (c : Str)
    (m : MermaidMatch) (st : RenderState)
    (hok : render c = none ∨ digest c ∈ st.pngs) :
    cacheInv digest c st ((replaceOneMatch cfg digest render outputDir m st).2) := by
  by_cases h1 : pyStrip m.body = []
  · rw [replaceOneMatch_empty cfg digest render outputDir m st h1]
    exact cacheInv_refl digest c st
  · by_cases h2 : digest (pyStrip m.body) ∈ st.pngs
    · have hst : (replaceOneMatch cfg digest render outputDir m st).2 = st := by
        simp [replaceOneMatch, h1, h2]
      rw [hst]
      exact cacheInv_refl digest c st
    · cases hrc : render (pyStrip m.body) with
      | none =>
        have hst : (replaceOneMatch cfg digest render outputDir m st).2
            = { st with pngs := st.pngs ++ [digest (pyStrip m.body)],
                        calls := st.calls ++ [pyStrip m.body] } := by
          simp [replaceOneMatch, h1, h2, hrc]
        rw [hst]
        by_cases hcc : pyStrip m.body = c
        · refine ⟨fun d hd => List.mem_append_left _ hd, ?_, ?_, ?_⟩
          · intro hmem
            rw [hcc] at h2
            exact absurd hmem h2
          · rw [hcc] at h2 ⊢
            rw [if_neg h2]
            simp [List.count_append]
          · intro _
            rw [hcc]
            exact List.mem_append_right _ (by simp)
        · have hcnt : (st.calls ++ [pyStrip m.body]).count c = st.calls.count c := by
            simp [List.count_append, List.count_cons, beq_iff_eq, hcc]
          refine ⟨fun d hd => List.mem_append_left _ hd, fun _ => hcnt, ?_, ?_⟩
          · rw [hcnt]; split <;> omega
          · intro hlt
            rw [hcnt] at hlt
            exact absurd hlt (lt_irrefl _)
      | some e =>
        have hcc : pyStrip m.body ≠ c := by
          intro hq
          cases hok with
          | inl hr => rw [hq, hr] at hrc; exact Option.noConfusion hrc
          | inr hmem => rw [hq] at h2; exact h2 hmem
        have hcnt : ∀ l : List Str, (l ++ [pyStrip m.body]).count c = l.count c := by
          intro l
          simp [List.count_append, List.count_cons, beq_iff_eq, hcc]
        by_cases h3 : cfg.mermaid_fail_on_error
        · have hst : (replaceOneMatch cfg digest render outputDir m st).2
              = { st with calls := st.calls ++ [pyStrip m.body] } := by
            simp [replaceOneMatch, h1, h2, hrc, h3]
          rw [hst]
          exact cacheInv_of_eq digest c st _ rfl (hcnt st.calls)
        · have hst : (replaceOneMatch cfg digest render outputDir m st).2
              = { st with calls := st.calls ++ [pyStrip m.body],
                          warnings := st.warnings ++ [digest (pyStrip m.body)] } := by
            simp [replaceOneMatch, h1, h2, hrc, h3]
          rw [hst]
          exact cacheInv_of_eq digest c st _ rfl (hcnt st.calls)

/-- When the renderer succeeds on a content, or the content's image is
already cached, whole-document substitution keeps the caching invariant
for it. -/
theorem processPieces_cacheInv (cfg : Config) (digest : DigestOracle)
    (render : RenderOracle) (outputDir : Str) (c : Str) :
    ∀ (doc : List DocPiece) (st : RenderState),
      (render c = none ∨ digest c ∈ st.pngs) →
      cacheInv digest c st ((processPieces cfg digest render outputDir doc st).2) := by
  intro doc
  induction doc with
  | nil => intro st _; exact cacheInv_refl digest c st
  | cons piece rest ih =>
    intro st hok
    cases piece with
    | text s =>
      rcases h1 : processPieces cfg digest render outputDir rest st with ⟨r1, st1⟩
      have hinv := ih st hok
      rw [h1] at hinv
      cases r1 <;> simpa [processPieces, h1] using hinv
    | mermaid m =>
      have hone := replaceOneMatch_cacheInv cfg digest render outputDir c m st hok
      rcases h0 : replaceOneMatch cfg digest render outputDir m st with ⟨r0, st0⟩
      rw [h0] at hone
      have hok0 : render c = none ∨ digest c ∈ st0.pngs :=
        hok.imp id (hone.1 (digest c))
      cases r0 with
      | ok o =>
        have hrest := ih st0 hok0
        rcases h1 : processPieces cfg digest render outputDir rest st0 with ⟨r1, st1⟩
        rw [h1] at hrest
        cases r1 <;>
          simpa [processPieces, h0, h1] using
            cacheInv_trans digest c st st0 st1 hone hrest
      | error e => simpa [processPieces, h0] using hone

/-- The caching invariant lifts through `replace_mermaid_blocks`. -/
theorem replace_mermaid_blocks_cacheInv (cfg : Config) (digest : DigestOracle)
    (render : RenderOracle) (outputDir : Str) (c : Str)
    (doc : List DocPiece) (st : RenderState)
    (hok : render c = none ∨ digest c ∈ st.pngs) :
    cacheInv digest c st ((replace_mermaid_blocks cfg digest render outputDir doc st).2) := by
  unfold replace_mermaid_blocks
  split
  · exact cacheInv_refl digest c st
  · have hmk : cacheInv digest c st { st with mkdirs := st.mkdirs ++ [assetDir outputDir] } :=
      cacheInv_of_eq digest c st _ rfl rfl
    have hpp := processPieces_cacheInv cfg digest render outputDir c doc
      { st with mkdirs := st.mkdirs ++ [assetDir outputDir] } hok
    rcases h1 : processPieces cfg digest render outputDir doc
        { st with mkdirs := st.mkdirs ++ [assetDir outputDir] } with ⟨r1, st1⟩
    rw [h1] at hpp
    cases r1 <;> simpa [h1] using cacheInv_trans digest c st _ st1 hmk hpp

/-- The caching invariant lifts through one page's content step. -/
theorem pageContent_cacheInv (cfg : Config) (digest : DigestOracle)
    (render : RenderOracle) (decomp : DecompOracle) (outputDir : Str) (c : Str)
    (page : CollectedPage) (st : RenderState)
    (hok : render c = none ∨ digest c ∈ st.pngs) :
    cacheInv digest c st
      ((pageContent cfg digest render decomp outputDir page st).2) := by
  unfold pageContent
  split
  · exact replace_mermaid_blocks_cacheInv cfg digest render outputDir c _ st hok
  · exact cacheInv_refl digest c st

/-- The caching invariant lifts through one page's chunk step. -/
theorem pageChunk_cacheInv (cfg : Config) (digest : DigestOracle)
    (render : RenderOracle) (decomp : DecompOracle) (outputDir : Str) (c : Str)
    (page : CollectedPage) (st : RenderState)
    (hok : render c = none ∨ digest c ∈ st.pngs) :
    cacheInv digest c st ((pageChunk cfg digest render decomp outputDir page st).2) := by
  have h := pageContent_cacheInv cfg digest render decomp outputDir c page st hok
  rcases h1 : pageContent cfg digest render decomp outputDir page st with ⟨r1, st1⟩
  rw [h1] at h
  cases r1 <;> simpa [pageChunk, h1] using h

/-- The caching invariant lifts through the chunk loop. -/
theorem pageChunks_cacheInv (cfg : Config) (digest : DigestOracle)
    (render : RenderOracle) (decomp : DecompOracle) (outputDir : Str) (c : Str) :
    ∀ (pages : List CollectedPage) (st : RenderState),
      (render c = none ∨ digest c ∈ st.pngs) →
      cacheInv digest c st
        ((pageChunks cfg digest render decomp outputDir pages st).2) := by
  intro pages
  induction pages with
  | nil => intro st _; exact cacheInv_refl digest c st
  | cons p rest ih =>
    intro st hok
    have h0 := pageChunk_cacheInv cfg digest render decomp outputDir c p st hok
    rcases h1 : pageChunk cfg digest render decomp outputDir p st with ⟨r1, st1⟩
    rw [h1] at h0
    have hok1 : render c = none ∨ digest c ∈ st1.pngs :=
      hok.imp id (h0.1 (digest c))
    cases r1 with
    | ok c1 =>
      have h2 := ih st1 hok1
      rcases h3 : pageChunks cfg digest render decomp outputDir rest st1 with ⟨r2, st2⟩
      rw [h3] at h2
      cases r2 <;>
        simpa [pageChunks, h1, h3] using cacheInv_trans digest c st st1 st2 h0 h2
    | error e => simpa [pageChunks, h1] using h0

/-- The caching invariant lifts through the whole aggregation. -/
theorem build_combined_markdown_cacheInv (cfg : Config) (digest : DigestOracle)
    (render : RenderOracle) (decomp : DecompOracle) (outputDir : Str) (c : Str)
    (pages : List CollectedPage) (st : RenderState)
    (hok : render c = none ∨ digest c ∈ st.pngs) :
    cacheInv digest c st
      ((build_combined_markdown cfg digest render decomp outputDir pages st).2) := by
  have h := pageChunks_cacheInv cfg digest render decomp outputDir c pages st hok
  rcases h1 : pageChunks cfg digest render decomp outputDir pages st with ⟨r1, st1⟩
  rw [h1] at h
  cases r1 <;> simpa [build_combined_markdown, h1] using h

/-- A block whose content renders successfully (or is cached) is always
replaced by the image reference at the content-derived path. -/
theorem replaceOneMatch_success_output (cfg : Config) (digest : DigestOracle)
    (render : RenderOracle) (outputDir : Str) (c : Str) (m : MermaidMatch)
    (st : RenderState) (hm : pyStrip m.body = c) (hcne : c ≠ [])
    (hok : render c = none ∨ digest c ∈ st.pngs) :
    (replaceOneMatch cfg digest render outputDir m st).1
      = Except.ok (mermaidImageRef outputDir (digest c)) := by
  by_cases h2 : digest c ∈ st.pngs
  · simp [replaceOneMatch, hm, hcne, h2]
  · have hr : render c = none := hok.resolve_right h2
    simp [replaceOneMatch, hm, hcne, h2, hr]

/-- Every occurrence of a successfully rendering (or already cached)
content is rewritten, at whatever position, to the same image
reference. -/
theorem processPieces_pointwise (cfg : Config) (digest : DigestOracle)
    (render : RenderOracle) (outputDir : Str) (c : Str) (hcne : c ≠ []) :
    ∀ (doc : List DocPiece) (st : RenderState) (outs : List Str) (st' : RenderState),
      (render c = none ∨ digest c ∈ st.pngs) →
      processPieces cfg digest render outputDir doc st = (Except.ok outs, st') →
      ∀ (i : Nat) (m : MermaidMatch), doc.get? i = some (DocPiece.mermaid m) →
        pyStrip m.body = c →
        outs.get? i = some (mermaidImageRef outputDir (digest c)) := by
  intro doc
  induction doc with
  | nil =>
    intro st outs st' hok h i m hi
    simp at hi
  | cons piece rest ih =>
    intro st outs st' hok h i m hi hc
    cases piece with
    | text s =>
      rw [processPieces] at h
      rcases hrest : processPieces cfg digest render outputDir rest st with ⟨r2, st2⟩
      rw [hrest] at h
      cases r2 with
      | error e => simp at h
      | ok outs2 =>
        simp only [Prod.mk.injEq, Except.ok.injEq] at h
        rw [← h.1]
        cases i with
        | zero => simp at hi
        | succ n =>
          simp only [List.get?_cons_succ] at hi ⊢
          exact ih st outs2 st2 hok hrest n m hi hc
    | mermaid m2 =>
      rw [processPieces] at h
      rcases hone : replaceOneMatch cfg digest render outputDir m2 st with ⟨r1, st1⟩
      rw [hone] at h
      have hok1 : render c = none ∨ digest c ∈ st1.pngs := by
        refine hok.imp id (fun hmem => ?_)
        have hmono := replaceOneMatch_pngs_mono cfg digest render outputDir m2 st
          (digest c) hmem
        rw [hone] at hmono
        exact hmono
      cases r1 with
      | error e => simp at h
      | ok o =>
        dsimp only at h
        rcases hrest : processPieces cfg digest render outputDir rest st1 with ⟨r2, st2⟩
        rw [hrest] at h
        cases r2 with
        | error e => simp at h
        | ok outs2 =>
          simp only [Prod.mk.injEq, Except.ok.injEq] at h
          rw [← h.1]
          cases i with
          | zero =>
            simp only [List.get?_cons_zero, Option.some.injEq] at hi ⊢
            have hm2 : m2 = m := by
              injection hi
            subst hm2
            have hout := replaceOneMatch_success_output cfg digest render outputDir c m2
              st hc hcne hok
            rw [hone] at hout
            simpa using hout
          | succ n =>
            simp only [List.get?_cons_succ] at hi ⊢
            exact ih st1 outs2 st2 hok1 hrest n m hi hc

/-- Distinct digests give distinct cache paths and distinct image
references. -/
theorem mermaidImageRef_inj (outputDir d1 d2 : Str) (h : d1 ≠ d2) :
    mermaidImageRef outputDir d1 ≠ mermaidImageRef outputDir d2 := by
  intro heq
  apply h
  have hform : ∀ d : Str, mermaidImageRef outputDir d
      = ("![Mermaid diagram](".data ++ assetDir outputDir ++ ['/'])
        ++ (d ++ (".png".data ++ ")".data)) := by
    intro d
    simp [mermaidImageRef, pngPath, joinPath]
  rw [hform d1, hform d2] at heq
  have h1 := List.append_cancel_left heq
  exact List.append_cancel_right h1

/-- C1 counterexample: with a renderer that always fails and fail-fast
off, two blocks with identical trimmed content invoke the external
renderer twice within one build, and neither occurrence is rewritten to
an image reference — both keep their original fenced text.  The claim as
stated (at most one invocation, all occurrences rewritten to the cache
path) therefore fails. -/
theorem mermaid_renderer_called_twice_on_failure :
    ((processPieces defaultConfig (fun s => s) (fun _ => some { msg := "boom".data })
        "/out".data [DocPiece.mermaid failingMatch, DocPiece.mermaid failingMatch]
        emptyRenderState).2).calls.count "graph".data = 2 ∧
    (processPieces defaultConfig (fun s => s) (fun _ => some { msg := "boom".data })
        "/out".data [DocPiece.mermaid failingMatch, DocPiece.mermaid failingMatch]
        emptyRenderState).1
      = Except.ok [matchGroup0 failingMatch, matchGroup0 failingMatch] := by
  exact ⟨rfl, rfl⟩

/-- C1 (amended): for diagram content whose rendering succeeds, or whose
image is already cached when the build starts, one build invokes the
external renderer at most once for that content; every occurrence of that
content, at any position of any document, is rewritten to the image
reference at the cache path derived from the content's digest alone; and
when the digest is collision-free, two blocks with different content map
to different cache paths and different image references. -/
theorem mermaid_cache_content_addressed (cfg : Config) (digest : DigestOracle)
    (render : RenderOracle) (decomp : DecompOracle) (outputDir : Str) (c : Str) :
    (∀ (pages : List CollectedPage) (st : RenderState) (r : Except PluginError Str)
        (stFin : RenderState), st.calls = [] →
      (render c = none ∨ digest c ∈ st.pngs) →
      build_combined_markdown cfg digest render decomp outputDir pages st = (r, stFin) →
      stFin.calls.count c ≤ 1) ∧
    (c ≠ [] → ∀ (doc : List DocPiece) (st : RenderState) (outs : List Str)
        (st' : RenderState),
      (render c = none ∨ digest c ∈ st.pngs) →
      processPieces cfg digest render outputDir doc st = (Except.ok outs, st') →
      ∀ (i : Nat) (m : MermaidMatch), doc.get? i = some (DocPiece.mermaid m) →
        pyStrip m.body = c →
        outs.get? i = some (mermaidImageRef outputDir (digest c))) ∧
    (Function.Injective digest →
      ∀ c1 c2 : Str, c1 ≠ c2 →
        pngPath outputDir (digest c1) ≠ pngPath outputDir (digest c2) ∧
        mermaidImageRef outputDir (digest c1) ≠ mermaidImageRef outputDir (digest c2)) := by
  refine ⟨?_, ?_, ?_⟩
  · intro pages st r stFin hcalls hok hbc
    have h := build_combined_markdown_cacheInv cfg digest render decomp outputDir c
      pages st hok
    rw [hbc] at h
    obtain ⟨_, _, hle, _⟩ := h
    rw [hcalls] at hle
    simp only [List.count_nil] at hle
    by_cases hmem : digest c ∈ st.pngs
    · rw [if_pos hmem] at hle
      omega
    · rw [if_neg hmem] at hle
      omega
  · intro hcne
    exact processPieces_pointwise cfg digest render outputDir c hcne
  · intro hinj c1 c2 hne
    have hd : digest c1 ≠ digest c2 := fun h => hne (hinj h)
    constructor
    · intro heq
      exact hd (by simpa [pngPath, joinPath] using heq)
    · exact mermaidImageRef_inj outputDir (digest c1) (digest c2) hd

/-- Witness for the amended C1 at concrete inputs: with the image for
`"graph"` already cached, a block with that content is rewritten to the
cache-path image reference even though the renderer itself would fail,
and with the (injective) identity digest two different contents give
different image references. -/
theorem mermaid_cache_content_addressed_witness :
    "graph".data ∈ precachedRenderState.pngs ∧
    processPieces defaultConfig (fun s => s) (fun _ => some { msg := "boom".data })
        "/out".data [DocPiece.mermaid failingMatch] precachedRenderState
      = (Except.ok [mermaidImageRef "/out".data "graph".data], precachedRenderState) ∧
    [mermaidImageRef "/out".data "graph".data].get? 0
      = some (mermaidImageRef "/out".data "graph".data) ∧
    mermaidImageRef "/out".data "g1".data ≠ mermaidImageRef "/out".data "g2".data := by
  have h := mermaid_cache_content_addressed defaultConfig (fun s => s)
    (fun _ => some { msg := "boom".data }) (fun s => [DocPiece.text s]) "/out".data
    "graph".data
  refine ⟨by decide, rfl, ?_, ?_⟩
  · exact h.2.1 (by decide) [DocPiece.mermaid failingMatch] precachedRenderState
      [mermaidImageRef "/out".data "graph".data] precachedRenderState
      (Or.inr (by decide)) rfl 0 failingMatch rfl (by decide)
  · exact (h.2.2 (fun a b hab => hab) "g1".data "g2".data (by decide)).2

/-- Splitting always yields at least one line. -/
theorem linesOn_ne_nil (s : Str) : linesOn s ≠ [] := by
  cases s with
  | nil => simp [linesOn]
  | cons c t =>
    by_cases hc : c = '\n'
    · simp [linesOn, hc]
    · simp only [linesOn, if_neg hc]
      cases linesOn t <;> simp

/-- Rejoining the split lines recovers the string. -/
theorem joinLines_linesOn (s : Str) : joinLines (linesOn s) = s := by
  induction s with
  | nil => rfl
  | cons c t ih =>
    by_cases hc : c = '\n'
    · subst hc
      simp only [linesOn, if_pos rfl]
      cases hL : linesOn t with
      | nil => exact absurd hL (linesOn_ne_nil t)
      | cons l ls =>
        rw [hL] at ih
        show ([] : Str) ++ '\n' :: joinLines (l :: ls) = '\n' :: t
        rw [List.nil_append, ih]
    · simp only [linesOn, if_neg hc]
      cases hL : linesOn t with
      | nil => exact absurd hL (linesOn_ne_nil t)
      | cons l ls =>
        rw [hL] at ih
        cases ls with
        | nil =>
          show c :: l = c :: t
          rw [show joinLines [l] = l from rfl] at ih
          rw [ih]
        | cons l2 ls2 =>
          show (c :: l) ++ '\n' :: joinLines (l2 :: ls2) = c :: t
          rw [List.cons_append, ← ih]
          rfl

/-- Split lines never contain a newline. -/
theorem mem_linesOn_no_nl (s : Str) : ∀ l ∈ linesOn s, '\n' ∉ l := by
  induction s with
  | nil => intro l hl; simp [linesOn] at hl; simp [hl]
  | cons c t ih =>
    intro l hl
    by_cases hc : c = '\n'
    · simp only [linesOn, if_pos hc, List.mem_cons] at hl
      rcases hl with hl | hl
      · simp [hl]
      · exact ih l hl
    · simp only [linesOn, if_neg hc] at hl
      cases hL : linesOn t with
      | nil => exact absurd hL (linesOn_ne_nil t)
      | cons l0 ls =>
        rw [hL] at hl
        simp only [List.mem_cons] at hl
        rcases hl with hl | hl
        · subst hl
          intro hmem
          rcases List.mem_cons.mp hmem with hh | hh
          · exact hc hh.symm
          · exact ih l0 (by rw [hL]; simp) hh
        · exact ih l (by rw [hL]; simp [hl])

/-- Splitting distributes over a newline join. -/
theorem linesOn_append (a b : Str) : linesOn (a ++ '\n' :: b) = linesOn a ++ linesOn b := by
  induction a with
  | nil => simp [linesOn]
  | cons c t ih =>
    by_cases hc : c = '\n'
    · simp only [List.cons_append, linesOn, if_pos hc]
      exact congrArg (fun x => [] :: x) ih
    · simp only [List.cons_append, linesOn, if_neg hc, List.append_eq]
      rw [ih]
      cases hL : linesOn t with
      | nil => exact absurd hL (linesOn_ne_nil t)
      | cons l ls => simp

/-- A newline-free string is a single line. -/
theorem linesOn_no_nl (s : Str) (h : '\n' ∉ s) : linesOn s = [s] := by
  induction s with
  | nil => rfl
  | cons c t ih =>
    have hc : ¬c = '\n' := fun hq => h (by simp [hq])
    have ht : '\n' ∉ t := fun hq => h (by simp [hq])
    simp only [linesOn, if_neg hc, ih ht]

/-- Joining distributes over appending one more line. -/
theorem joinLines_append_singleton (L : List Str) (l : Str) (h : L ≠ []) :
    joinLines (L ++ [l]) = joinLines L ++ '\n' :: l := by
  induction L with
  | nil => exact absurd rfl h
  | cons x t ih =>
    cases t with
    | nil => rfl
    | cons y t2 =>
      have := ih (by simp)
      show x ++ '\n' :: joinLines ((y :: t2) ++ [l]) = (x ++ '\n' :: joinLines (y :: t2)) ++ '\n' :: l
      rw [this]
      simp

/-- How `dropWhile` distributes over append. -/
theorem dropWhile_append_ite (p : Char → Bool) (a b : List Char) :
    (a ++ b).dropWhile p
      = if a.dropWhile p = [] then b.dropWhile p else a.dropWhile p ++ b := by
  induction a with
  | nil => simp
  | cons c t ih =>
    by_cases hc : p c
    · simpa [List.dropWhile_cons, hc] using ih
    · simp [List.dropWhile_cons, hc]

/-- How `rstrip` distributes over append. -/
theorem rstrip_append (a b : Str) :
    rstrip (a ++ b) = if rstrip b = [] then rstrip a else a ++ rstrip b := by
  by_cases hb : b.reverse.dropWhile isWsChar = []
  · rw [if_pos (show rstrip b = [] by simp [rstrip, hb])]
    simp [rstrip, List.reverse_append, dropWhile_append_ite, hb]
  · rw [if_neg (show ¬rstrip b = [] by simp [rstrip, hb])]
    simp [rstrip, List.reverse_append, dropWhile_append_ite, hb]

/-- Lstrip erases the string exactly when it is all whitespace. -/
theorem lstrip_eq_nil_iff (s : Str) : lstrip s = [] ↔ ∀ x ∈ s, isWsChar x = true := by
  simp [lstrip, List.dropWhile_eq_nil_iff]

/-- Rstrip erases the string exactly when it is all whitespace. -/
theorem rstrip_eq_nil_iff (s : Str) : rstrip s = [] ↔ ∀ x ∈ s, isWsChar x = true := by
  simp [rstrip, List.dropWhile_eq_nil_iff]

/-- A non-empty `dropWhile` result starts with a failing character. -/
theorem dropWhile_headD_not (p : Char → Bool) (l : List Char) (d : Char)
    (h : l.dropWhile p ≠ []) : p ((l.dropWhile p).headD d) = false := by
  induction l with
  | nil => simp at h
  | cons c t ih =>
    by_cases hc : p c
    · rw [List.dropWhile_cons, if_pos hc] at h ⊢
      exact ih h
    · have hc' : p c = false := by simpa using hc
      simp [List.dropWhile_cons, hc']

/-- The default never matters for the last element of a cons cell. -/
theorem getLastD_cons_irrel {α : Type} (x : α) (xs : List α) (c d : α) :
    (x :: xs).getLastD c = (x :: xs).getLastD d := by
  rw [List.getLastD_cons c x xs, List.getLastD_cons d x xs]

/-- The last element of an append with a non-empty tail. -/
theorem getLastD_append_ne_nil {α : Type} (t l1 : List α) (d : α) (h : l1 ≠ []) :
    (t ++ l1).getLastD d = l1.getLastD d := by
  induction t generalizing d with
  | nil => rfl
  | cons c t' ih =>
    rw [List.cons_append, List.getLastD_cons, ih c]
    cases l1 with
    | nil => exact absurd rfl h
    | cons x xs => exact getLastD_cons_irrel x xs c d

/-- The last element of a string is the head of its reversal. -/
theorem getLastD_eq_headD_reverse (l : Str) (d : Char) :
    l.getLastD d = l.reverse.headD d := by
  cases hrev : l.reverse with
  | nil =>
    have : l = [] := by simpa using congrArg List.reverse hrev
    rw [this]
    rfl
  | cons c t =>
    have hl : l = t.reverse ++ [c] := by
      have := congrArg List.reverse hrev
      rwa [List.reverse_reverse, List.reverse_cons] at this
    rw [hl, getLastD_append_ne_nil t.reverse [c] d (by simp)]
    rfl

/-- A non-empty rstrip result ends in a non-whitespace character. -/
theorem rstrip_concat (s : Str) (h : rstrip s ≠ []) :
    ∃ c t, rstrip s = t ++ [c] ∧ isWsChar c = false := by
  cases hd : s.reverse.dropWhile isWsChar with
  | nil =>
    exfalso
    apply h
    simp [rstrip, hd]
  | cons c t0 =>
    refine ⟨c, t0.reverse, by simp [rstrip, hd], ?_⟩
    have hw := dropWhile_headD_not isWsChar s.reverse ' ' (by rw [hd]; simp)
    rw [hd] at hw
    simpa using hw

/-- A string ending in a visible character is unchanged by rstrip. -/
theorem rstrip_of_getLastD_not_ws (l : Str) (h : isWsChar (l.getLastD ' ') = false)
    (hne : l ≠ []) : rstrip l = l := by
  rw [getLastD_eq_headD_reverse] at h
  cases hrev : l.reverse with
  | nil => exact absurd (by simpa using congrArg List.reverse hrev) hne
  | cons c t =>
    rw [hrev] at h
    simp only [List.headD_cons] at h
    calc (l.reverse.dropWhile isWsChar).reverse
        = ((c :: t).dropWhile isWsChar).reverse := by rw [hrev]
      _ = (c :: t).reverse := by simp [List.dropWhile_cons, h]
      _ = l := by rw [← hrev, List.reverse_reverse]

/-- Stripping trailing whitespace twice is the same as once. -/
theorem rstrip_idem (s : Str) : rstrip (rstrip s) = rstrip s := by
  by_cases h : rstrip s = []
  · rw [h]; rfl
  · obtain ⟨c, t, hct, hcw⟩ := rstrip_concat s h
    apply rstrip_of_getLastD_not_ws _ _ h
    rw [hct, getLastD_append_ne_nil t [c] ' ' (by simp)]
    simpa using hcw

/-- A non-empty fully stripped string ends in a visible character. -/
theorem pyStrip_getLastD_not_ws (s : Str) (h : pyStrip s ≠ []) :
    isWsChar ((pyStrip s).getLastD ' ') = false := by
  have hy : rstrip s ≠ [] := by
    intro hq
    apply h
    unfold pyStrip
    rw [hq]
    rfl
  obtain ⟨t, ht⟩ := @List.dropWhile_suffix Char (rstrip s) isWsChar
  have hsame : (pyStrip s).getLastD ' ' = (rstrip s).getLastD ' ' := by
    conv_rhs => rw [← ht]
    exact (getLastD_append_ne_nil t _ ' ' h).symm
  rw [hsame]
  obtain ⟨c, t2, hct, hcw⟩ := rstrip_concat s hy
  rw [hct, getLastD_append_ne_nil t2 [c] ' ' (by simp)]
  simpa using hcw

/-- Stripping twice is the same as once. -/
theorem pyStrip_idem (s : Str) : pyStrip (pyStrip s) = pyStrip s := by
  by_cases h : pyStrip s = []
  · rw [h]; rfl
  · show lstrip (rstrip (pyStrip s)) = pyStrip s
    rw [rstrip_of_getLastD_not_ws _ (pyStrip_getLastD_not_ws s h) h]
    show lstrip (lstrip (rstrip s)) = pyStrip s
    rw [lstrip_idem]
    rfl

/-- Stripping erases the string exactly when it is all whitespace. -/
theorem pyStrip_eq_nil_iff (s : Str) : pyStrip s = [] ↔ ∀ x ∈ s, isWsChar x = true := by
  constructor
  · intro h
    by_cases hr : rstrip s = []
    · exact (rstrip_eq_nil_iff s).mp hr
    · exfalso
      have hall := (lstrip_eq_nil_iff (rstrip s)).mp h
      obtain ⟨c, t, hct, hcw⟩ := rstrip_concat s hr
      have hc : c ∈ rstrip s := by rw [hct]; simp
      rw [hall c hc] at hcw
      exact Bool.noConfusion hcw
  · intro h
    have hr : rstrip s = [] := (rstrip_eq_nil_iff s).mpr h
    show lstrip (rstrip s) = []
    rw [hr]
    rfl

/-- Stripping only removes characters. -/
theorem pyStrip_subset (s : Str) : ∀ x ∈ pyStrip s, x ∈ s := by
  intro x hx
  have h1 : x ∈ rstrip s := (List.dropWhile_sublist _).subset hx
  unfold rstrip at h1
  rw [List.mem_reverse] at h1
  have h2 : x ∈ s.reverse := (List.dropWhile_sublist _).subset h1
  rwa [List.mem_reverse] at h2

/-- Rstrip only removes characters. -/
theorem rstrip_subset (s : Str) : ∀ x ∈ rstrip s, x ∈ s := by
  intro x hx
  unfold rstrip at hx
  rw [List.mem_reverse] at hx
  have h2 : x ∈ s.reverse := (List.dropWhile_sublist _).subset hx
  rwa [List.mem_reverse] at h2

/-- Stripping after rstripping is plain stripping. -/
theorem pyStrip_rstrip (s : Str) : pyStrip (rstrip s) = pyStrip s := by
  show lstrip (rstrip (rstrip s)) = lstrip (rstrip s)
  rw [rstrip_idem]

/-- Python `s or ""` is just `s`. -/
theorem pyOrStr_nil_right (s : Str) : pyOrStr s [] = s := by
  by_cases h : s = [] <;> simp [pyOrStr, h]

/-- Core of the diagnostics equivalence, phrased over the line list of
the captured output. -/
theorem diag_core (L : List Str) :
    (∀ l ∈ L, '\n' ∉ l) → L ≠ [] →
    (if pyStrip (joinLines L) = [] then noDiagnosticsMsg
     else lastLogLineLabel
       ++ pyStrip ((linesOn (pyStrip (joinLines L))).getLastD []))
    = (match L.reverse.find? (fun l => !(pyStrip l).isEmpty) with
       | some l => lastLogLineLabel ++ pyStrip l
       | none => noDiagnosticsMsg) := by
  induction L using List.reverseRecOn with
  | nil => intro _ h; exact absurd rfl h
  | append_singleton L' l ih =>
    intro hnl _
    have hnl' : ∀ x ∈ L', '\n' ∉ x := fun x hx => hnl x (by simp [hx])
    have hnll : '\n' ∉ l := hnl l (by simp)
    by_cases hL : L' = []
    · subst hL
      simp only [List.nil_append]
      by_cases hb : pyStrip l = []
      · rw [show joinLines [l] = l from rfl, if_pos hb]
        have hfind : ([l] : List Str).reverse.find? (fun x => !(pyStrip x).isEmpty)
            = none := by
          simp [hb]
        rw [hfind]
      · rw [show joinLines [l] = l from rfl, if_neg hb]
        have h1 : linesOn (pyStrip l) = [pyStrip l] :=
          linesOn_no_nl _ (fun hmem => hnll (pyStrip_subset l '\n' hmem))
        rw [h1]
        have hfind : ([l] : List Str).reverse.find? (fun x => !(pyStrip x).isEmpty)
            = some l := by
          simp [hb]
        rw [hfind]
        show lastLogLineLabel ++ pyStrip (pyStrip l) = _
        rw [pyStrip_idem]
    · have hj : joinLines (L' ++ [l]) = joinLines L' ++ '\n' :: l :=
        joinLines_append_singleton L' l hL
      by_cases hb : pyStrip l = []
      · have hws : ∀ x ∈ ('\n' :: l), isWsChar x = true := by
          intro x hx
          rcases List.mem_cons.mp hx with hx | hx
          · rw [hx]; decide
          · exact (pyStrip_eq_nil_iff l).mp hb x hx
        have hstrip : pyStrip (joinLines (L' ++ [l])) = pyStrip (joinLines L') := by
          show lstrip (rstrip (joinLines (L' ++ [l]))) = lstrip (rstrip (joinLines L'))
          rw [hj, rstrip_append, if_pos ((rstrip_eq_nil_iff _).mpr hws)]
        have hfind : (L' ++ [l]).reverse.find? (fun x => !(pyStrip x).isEmpty)
            = L'.reverse.find? (fun x => !(pyStrip x).isEmpty) := by
          rw [List.reverse_append]
          simp [hb]
        rw [hstrip, hfind]
        exact ih hnl' hL
      · have hrl : rstrip l ≠ [] := by
          intro hq
          apply hb
          show lstrip (rstrip l) = []
          rw [hq]
          rfl
        have hstrip_r : rstrip (joinLines (L' ++ [l]))
            = joinLines L' ++ '\n' :: rstrip l := by
          rw [hj, rstrip_append (joinLines L') ('\n' :: l)]
          have h2 : rstrip ('\n' :: l) = '\n' :: rstrip l := by
            rw [show ('\n' :: l : Str) = ['\n'] ++ l from rfl,
              rstrip_append ['\n'] l, if_neg hrl]
            rfl
          rw [h2, if_neg (by simp)]
        have hfind : (L' ++ [l]).reverse.find? (fun x => !(pyStrip x).isEmpty)
            = some l := by
          rw [List.reverse_append]
          simp [hb]
        by_cases hla : lstrip (joinLines L') = []
        · have hstrip : pyStrip (joinLines (L' ++ [l])) = pyStrip l := by
            show lstrip (rstrip (joinLines (L' ++ [l]))) = pyStrip l
            rw [hstrip_r, lstrip_append, if_pos hla]
            rfl
          rw [hstrip, if_neg hb]
          have h1 : linesOn (pyStrip l) = [pyStrip l] :=
            linesOn_no_nl _ (fun hmem => hnll (pyStrip_subset l '\n' hmem))
          rw [h1, hfind]
          show lastLogLineLabel ++ pyStrip (pyStrip l) = _
          rw [pyStrip_idem]
        · have hstrip : pyStrip (joinLines (L' ++ [l]))
              = lstrip (joinLines L') ++ '\n' :: rstrip l := by
            show lstrip (rstrip (joinLines (L' ++ [l]))) = _
            rw [hstrip_r, lstrip_append, if_neg hla]
          rw [hstrip, if_neg (by simp), linesOn_append]
          have h2 : linesOn (rstrip l) = [rstrip l] := by
            apply linesOn_no_nl
            intro hmem
            exact hnll (rstrip_subset l '\n' hmem)
          rw [h2, getLastD_append_ne_nil _ [rstrip l] [] (by simp), hfind]
          show lastLogLineLabel ++ pyStrip ((rstrip l :: []).getLastD []) = _
          show lastLogLineLabel ++ pyStrip (rstrip l) = _
          rw [pyStrip_rstrip]

/-- The code's diagnostic computation agrees with the specification's
wording, for any captured output. -/
theorem diag_eq_on (u : Str) :
    (if pyStrip u = [] then noDiagnosticsMsg
     else lastLogLineLabel ++ pyStrip ((pySplitlines (pyStrip u)).getLastD []))
    = (match lastNonBlankLine u with
       | some l => lastLogLineLabel ++ pyStrip l
       | none => noDiagnosticsMsg) := by
  by_cases hu : u = []
  · subst hu
    rfl
  · have hbridge : (if pyStrip u = [] then noDiagnosticsMsg
        else lastLogLineLabel ++ pyStrip ((pySplitlines (pyStrip u)).getLastD []))
        = (if pyStrip u = [] then noDiagnosticsMsg
        else lastLogLineLabel ++ pyStrip ((linesOn (pyStrip u)).getLastD [])) := by
      by_cases hb : pyStrip u = []
      · rw [if_pos hb, if_pos hb]
      · have hlast : (pyStrip u).getLastD ' ' ≠ '\n' := by
          have hws := pyStrip_getLastD_not_ws u hb
          intro hq
          rw [hq] at hws
          exact absurd hws (by decide)
        rw [if_neg hb, if_neg hb,
          show pySplitlines (pyStrip u) = linesOn (pyStrip u) from by
            unfold pySplitlines
            rw [if_neg hb, if_neg hlast]]
    rw [hbridge]
    have hspec : lastNonBlankLine u
        = (linesOn u).reverse.find? (fun l => !(pyStrip l).isEmpty) := by
      unfold lastNonBlankLine pySplitlines
      rw [if_neg hu]
      by_cases hl : u.getLastD ' ' = '\n'
      · rw [if_pos hl]
        obtain ⟨a, ha⟩ : ∃ a, u = a ++ ['\n'] := by
          cases hrev : u.reverse with
          | nil => exact absurd (by simpa using congrArg List.reverse hrev) hu
          | cons c t =>
            have hc : c = '\n' := by
              have h1 := getLastD_eq_headD_reverse u ' '
              rw [hrev] at h1
              simp only [List.headD_cons] at h1
              exact h1.symm.trans hl
            refine ⟨t.reverse, ?_⟩
            have h2 := congrArg List.reverse hrev
            rw [List.reverse_reverse, List.reverse_cons] at h2
            rw [h2, hc]
        rw [ha, show (a ++ ['\n'] : Str) = a ++ '\n' :: [] from rfl, linesOn_append,
          show linesOn ([] : Str) = [[]] from rfl, List.dropLast_concat,
          List.reverse_append]
        simp only [List.reverse_cons, List.reverse_nil, List.nil_append,
          List.singleton_append]
        exact (List.find?_cons_of_neg _ (by decide)).symm
      · rw [if_neg hl]
    rw [hspec]
    have hcore := diag_core (linesOn u) (mem_linesOn_no_nl u) (linesOn_ne_nil u)
    rw [joinLines_linesOn] at hcore
    exact hcore

/-- The implemented diagnostics extraction computes exactly the last
non-blank line reading of the specification. -/
theorem extract_diagnostics_eq_spec (stderr stdout : Str) :
    extract_diagnostics stderr stdout = diagnosticsSpec stderr stdout := by
  unfold extract_diagnostics diagnosticsSpec
  rw [pyOrStr_nil_right]
  exact diag_eq_on (pyOrStr stderr stdout)

/-- C6 counterexample: the executable-not-found failure carries the
missing executable name but not the context label — the context string
does not occur in the message, so "each raise a classified failure
carrying the context label" fails as stated for this failure kind. -/
theorem run_command_not_found_no_context :
    run_command defaultConfig (fun _ => RunOutcome.notFound)
        ["pandoc".data, "in.md".data] "DOCX export".data none
      = Except.error { msg := "Executable not found: pandoc".data } ∧
    occursIn "DOCX export".data "Executable not found: pandoc".data = false := by
  exact ⟨rfl, rfl⟩

/-- C6 (amended): the process runner classifies every outcome — a missing
executable raises a failure naming the executable (not the context
label), a timeout and a non-zero exit raise failures prefixed with the
context label, a zero exit raises nothing and discards the captured
output, and the non-zero-exit diagnostic string is exactly the last
non-blank line of the captured error output (falling back to standard
output), or the fixed no-diagnostics message when that output is blank. -/
theorem run_command_classification (cfg : Config) (exec : ProcessOracle)
    (command : List Str) (context : Str) (timeout : Option Int) :
    (exec command = RunOutcome.notFound →
      run_command cfg exec command context timeout
        = Except.error { msg := "Executable not found: ".data ++ command.headD [] }) ∧
    (exec command = RunOutcome.timedOut →
      run_command cfg exec command context timeout
        = Except.error ⟨context ++ " timed out after ".data
            ++ intToStr (effectiveTimeout cfg timeout) ++ " seconds.".data⟩) ∧
    (∀ code out err, exec command = RunOutcome.completed code out err → code ≠ 0 →
      run_command cfg exec command context timeout
        = Except.error ⟨context ++ " failed with exit code ".data
            ++ intToStr code ++ ". ".data ++ extract_diagnostics err out⟩) ∧
    (∀ out err, exec command = RunOutcome.completed 0 out err →
      run_command cfg exec command context timeout = Except.ok ()) ∧
    (∀ err out, extract_diagnostics err out = diagnosticsSpec err out) := by
  refine ⟨?_, ?_, ?_, ?_, fun err out => extract_diagnostics_eq_spec err out⟩
  · intro h
    unfold run_command
    rw [h]
  · intro h
    unfold run_command
    rw [h]
  · intro code out err h hc
    unfold run_command
    rw [h]
    simp [hc]
  · intro out err h
    unfold run_command
    rw [h]
    rfl

/-- Witness for the amended C6: a concrete non-zero exit whose stderr
ends in blank lines yields the context label, the exit code and the last
non-blank log line. -/
theorem run_command_classification_witness :
    run_command defaultConfig
        (fun _ => RunOutcome.completed 1 [] "x\n\nerr line\n  \n".data)
        ["pandoc".data] "DOCX export".data none
      = Except.error
          { msg := "DOCX export failed with exit code 1. Last log line: err line".data } ∧
    extract_diagnostics "x\n\nerr line\n  \n".data []
      = diagnosticsSpec "x\n\nerr line\n  \n".data [] := by
  constructor
  · have h := (run_command_classification defaultConfig
      (fun _ => RunOutcome.completed 1 [] "x\n\nerr line\n  \n".data)
      ["pandoc".data] "DOCX export".data none).2.2.1 1 [] "x\n\nerr line\n  \n".data
      rfl (by decide)
    rw [h]
    rfl
  · exact (run_command_classification defaultConfig
      (fun _ => RunOutcome.completed 1 [] "x\n\nerr line\n  \n".data)
      ["pandoc".data] "DOCX export".data none).2.2.2.2 "x\n\nerr line\n  \n".data []
